import Mathlib

/-!
Verification of the Koi compiler front-end (scanner, parser, semantic
analyzer, IR builder) against its natural-language specification.

The Go sources are shallowly embedded: each Go function becomes an
executable Lean definition over explicit state records.  Mutable state
(scanner cursor, parser position, the scope tree) is threaded as values;
the scope tree is an arena (`Array ScopeR`) indexed by integers, with the
Go back-pointers `parent`/`Scope` stored as indices.  Go `panic` /
`log.Fatal` paths are modelled as `Except.error`; Go loops become
fuel-indexed recursions, where the supplied fuel provably dominates the
number of iterations of the original loop.
-/

set_option maxHeartbeats 1000000
set_option maxRecDepth 10000

namespace Koi

/-! ## Token model (koi/token) -/

/-- Token types, from `token/types.go` (the iteration with `NEWLINE`,
`INT_LIT`, `FLOAT_LIT`, `BYTE_LIT` and the six primitive type keywords). -/
inductive TokenType where
  | ILLEGAL | EOF | NEWLINE
  | STRING_LIT | INT_LIT | FLOAT_LIT | IDENT | BYTE_LIT
  | TRUE | FALSE | RETURN | FUNC | IF | ELSE | FOR | IMPORT | PACKAGE | NIL | PUB
  | PLUS | MINUS | STAR | SLASH | PERCENT
  | EQ | EQ_EQ | NOT_EQ | PLUS_EQ | MINUS_EQ | MULT_EQ | DIV_EQ
  | GREATER | LESS | GREATER_EQ | LESS_EQ
  | LPAREN | RPAREN | LBRACE | RBRACE | LBRACK | RBRACK
  | AND | AND_AND | OR | OR_OR | NOT
  | DOT | COMMA | SEMI | COLON | COLON_EQ
  | VOID | INT | FLOAT | STRING | BYTE | BOOL
  deriving DecidableEq, Repr

/-- `token.String` (`tokenStrings` array). -/
def tokenTypeString : TokenType → String
  | .ILLEGAL => "illegal"
  | .EOF => "eof"
  | .NEWLINE => "newline"
  | .STRING_LIT => "string"
  | .INT_LIT => "int"
  | .FLOAT_LIT => "float"
  | .IDENT => "identifier"
  | .BYTE_LIT => ""
  | .TRUE => "true"
  | .FALSE => "false"
  | .RETURN => "return"
  | .FUNC => "func"
  | .IF => "if"
  | .ELSE => "else"
  | .FOR => "for"
  | .IMPORT => "import"
  | .PACKAGE => "package"
  | .NIL => "nil"
  | .PUB => "pub"
  | .PLUS => "+"
  | .MINUS => "-"
  | .STAR => "*"
  | .SLASH => "/"
  | .PERCENT => "%"
  | .EQ => "="
  | .EQ_EQ => "=="
  | .NOT_EQ => "!="
  | .PLUS_EQ => "+="
  | .MINUS_EQ => "-="
  | .MULT_EQ => "*="
  | .DIV_EQ => "/="
  | .GREATER => ">"
  | .LESS => "<"
  | .GREATER_EQ => ">="
  | .LESS_EQ => "<="
  | .LPAREN => "("
  | .RPAREN => ")"
  | .LBRACE => "\x7b"
  | .RBRACE => "\x7d"
  | .LBRACK => "["
  | .RBRACK => "]"
  | .AND => "&"
  | .AND_AND => "&&"
  | .OR => "|"
  | .OR_OR => "||"
  | .NOT => "!"
  | .DOT => "."
  | .COMMA => ","
  | .SEMI => ";"
  | .COLON => ":"
  | .COLON_EQ => ":="
  | .VOID => "void"
  | .INT => "int"
  | .FLOAT => "float"
  | .STRING => "string"
  | .BYTE => "byte"
  | .BOOL => "bool"

/-- `token.Keywords` map. -/
def keywords : List (String × TokenType) :=
  [("pub", .PUB), ("true", .TRUE), ("false", .FALSE), ("return", .RETURN),
   ("func", .FUNC), ("if", .IF), ("else", .ELSE), ("for", .FOR),
   ("import", .IMPORT), ("package", .PACKAGE), ("nil", .NIL),
   ("byte", .BYTE), ("float", .FLOAT), ("void", .VOID),
   ("string", .STRING), ("int", .INT), ("bool", .BOOL)]

/-- `token.SingleSymbols` map, keyed by the single character. -/
def singleSymbols : List (Char × TokenType) :=
  [('+', .PLUS), ('-', .MINUS), ('*', .STAR), ('/', .SLASH),
   ('.', .DOT), (',', .COMMA), (';', .SEMI), (':', .COLON),
   ('=', .EQ), ('>', .GREATER), ('<', .LESS),
   ('(', .LPAREN), (')', .RPAREN), ('{', .LBRACE), ('}', .RBRACE),
   ('[', .LBRACK), (']', .RBRACK), ('&', .AND), ('|', .OR),
   ('%', .PERCENT), ('!', .NOT)]

/-- `token.DoubleSymbols` map; the scanner compares the first character to
`cur` and the second to `peek`.  All keys have pairwise distinct first
characters, so Go's random map iteration order is immaterial. -/
def doubleSymbols : List (Char × Char × TokenType) :=
  [('|', '|', .OR_OR), ('>', '=', .GREATER_EQ), ('<', '=', .LESS_EQ),
   ('&', '&', .AND_AND), ('=', '=', .EQ_EQ), ('!', '=', .NOT_EQ),
   ('+', '=', .PLUS_EQ), ('-', '=', .MINUS_EQ), ('*', '=', .MULT_EQ),
   ('/', '=', .DIV_EQ), (':', '=', .COLON_EQ)]

/-- `token.Pos` (`{Col, Row, Offset, LineBegin, File}`); the `File` pointer
is dropped since a single file is modelled. -/
structure Pos where
  col : Nat := 0
  row : Nat := 0
  offset : Nat := 0
  lineBegin : Nat := 0
  deriving DecidableEq, Repr

/-- `token.Token`. -/
structure Token where
  ttype : TokenType := .ILLEGAL
  pos : Pos := {}
  endPos : Pos := {}
  lexeme : String := ""
  invalid : Bool := false
  isFloat : Bool := false
  eof : Bool := false
  deriving DecidableEq, Repr

/-! ## File model (koi/token file.go) -/

/-- `findEndOfLine`: index of the last character on the line that contains
`offset` (the character right before the newline, or the last byte of the
file).  Returns an `Int` because Go computes `i - 1`, which is `-1` for a
line whose first character is already a newline.  The fuel dominates the
loop (`src.length + 1` iterations at most); on exhaustion the loop-end
value is returned, which coincides with the Go result. -/
def findEndOfLineAux (src : List Char) : Nat → Nat → Int
  | 0, _ => (src.length : Int) - 1
  | fuel + 1, i =>
    if h : i < src.length then
      if src.get ⟨i, h⟩ = '\n' then (i : Int) - 1
      else findEndOfLineAux src fuel (i + 1)
    else (src.length : Int) - 1

def findEndOfLine (src : List Char) (offset : Nat) : Int :=
  findEndOfLineAux src (src.length + 1) offset

/-- One iteration step of the `getLines` loop; `fuel` dominates the number
of iterations (the loop index strictly increases by at least 1). -/
def getLinesAux (src : List Char) (fuel : Nat) (i : Nat) (acc : List Nat) : List Nat :=
  match fuel with
  | 0 => acc
  | fuel' + 1 =>
    if i < src.length then
      let acc' := acc ++ [i]
      let i' := findEndOfLine src i + 2
      getLinesAux src fuel' i'.toNat acc'
    else acc

/-- `getLines`: offsets of the beginning of each line. -/
def getLines (src : List Char) : List Nat :=
  getLinesAux src (src.length + 1) 0 []

/-- `token.File` (name and `Err` dropped; construction from a string). -/
structure File where
  src : List Char
  lines : List Nat
  deriving DecidableEq, Repr

/-- `token.NewFile` on an in-memory string source. -/
def newFile (source : String) : File :=
  { src := source.data, lines := getLines source.data }

/-- `File.Line`.  Go panics when `row` is out of bounds or when the slice
bounds are inverted (`end < offset`, which happens for empty lines); both
panics are modelled as `none`. -/
def fileLine (f : File) (row : Nat) : Option String :=
  if h : row < f.lines.length then
    let offset := f.lines.get ⟨row, h⟩
    let endi := findEndOfLine f.src offset
    if endi < (offset : Int) then none
    else some (String.mk ((f.src.drop offset).take (endi.toNat - offset)))
  else none

/-! ## Diagnostics (koi/util ErrorHandler.Pretty)

A diagnostic records the arguments of `ErrorHandler.Pretty`; the final
rendering to a three-line string is injective in these fields, so the
record is kept instead of the rendered text.  `lineStr` carries the
`Option` from `fileLine` (a `none` here marks a path on which Go would
have panicked inside `File.Line`). -/
structure Diag where
  line : Nat
  lineStr : Option String
  msg : String
  colStart : Nat
  colEnd : Nat
  deriving DecidableEq, Repr

/-! ## Scanner (koi/scanner/scanner.go) -/

structure ScanState where
  file : File
  src : List Char
  row : Nat := 0
  col : Nat := 0
  startCol : Nat := 0
  pos : Nat := 0
  base : Nat := 0
  lineBegin : Nat := 0
  numErrors : Nat := 0
  diags : List Diag := []
  deriving DecidableEq, Repr

def newScanner (f : File) : ScanState :=
  { file := f, src := f.src }

def sEof (s : ScanState) : Bool :=
  decide (s.src.length ≤ s.pos)

/-- `Scanner.cur`; returns the NUL character on EOF (Go returns byte 0). -/
def sCur (s : ScanState) : Char :=
  if sEof s then Char.ofNat 0 else s.src.getD s.pos (Char.ofNat 0)

/-- `Scanner.peek`. -/
def sPeek (s : ScanState) : Char :=
  if s.src.length ≤ s.pos + 1 then Char.ofNat 0 else s.src.getD (s.pos + 1) (Char.ofNat 0)

/-- `Scanner.next`: advance one character, updating row/col bookkeeping on
newlines (Go increments `col` first, then resets it on a newline). -/
def sNext (s : ScanState) : ScanState :=
  if sEof s then s
  else
    let s1 := { s with col := s.col + 1 }
    let s2 :=
      if sCur s1 = '\n' then
        { s1 with row := s1.row + 1, col := 0, startCol := 0,
                  base := s1.pos + 1, lineBegin := s1.pos + 1 }
      else s1
    { s2 with pos := s2.pos + 1 }

/-- `Scanner.interval`: `string(s.src[s.base:s.pos])`. -/
def interval (s : ScanState) : String :=
  String.mk ((s.src.drop s.base).take (s.pos - s.base))

/-- `Scanner.tokenPos`. -/
def tokenPos (s : ScanState) : Pos :=
  { col := s.startCol, row := s.row, offset := s.base, lineBegin := s.lineBegin }

/-- `Scanner.tokenEndPos`. -/
def tokenEndPos (s : ScanState) : Pos :=
  { col := s.col, row := s.row, offset := s.pos, lineBegin := s.lineBegin }

def eofToken (s : ScanState) : Token :=
  { ttype := .EOF, eof := true, pos := tokenPos s, endPos := tokenEndPos s }

/-- `Scanner.err`: record a diagnostic (`ErrorHandler.Pretty`) and bump
`NumErrors`. -/
def sErr (s : ScanState) (msg : String) : ScanState :=
  { s with
    numErrors := s.numErrors + 1
    diags := s.diags ++
      [{ line := s.row + 1, lineStr := fileLine s.file s.row, msg := msg,
         colStart := s.startCol, colEnd := s.col }] }

def isAlpha (c : Char) : Bool :=
  "abcdefghijklmnopqrstuvwxyzABCDEFGHIJKLMNOPQRSTUVWXYZ_".data.contains c

def isNum (c : Char) : Bool :=
  "0123456789".data.contains c

def isWhitespace (c : Char) : Bool :=
  "\t\r ".data.contains c

/-- The whitespace-skipping loop at the top of `scanWhitespace` (also resets
`base`/`startCol` after each skipped character). -/
def wsLoop : Nat → ScanState → ScanState
  | 0, s => s
  | fuel + 1, s =>
    if !sEof s && isWhitespace (sCur s) then
      let s1 := sNext s
      wsLoop fuel { s1 with base := s1.pos, startCol := s1.col }
    else s

/-- The comment-consuming loop in `scanComment`. -/
def commentLoop : Nat → ScanState → ScanState
  | 0, s => s
  | fuel + 1, s =>
    if !sEof s && decide (sCur s ≠ '\n') then commentLoop fuel (sNext s) else s

/-- The character loop of `scanIdentifier`. -/
def identLoop : Nat → ScanState → ScanState
  | 0, s => s
  | fuel + 1, s =>
    if !sEof s && (isAlpha (sCur s) || isNum (sCur s)) then identLoop fuel (sNext s)
    else s

/-- The digit/dot loop of `scanNumber`; returns the updated state and the
number of dots seen. -/
def numLoop : Nat → ScanState → Nat → ScanState × Nat
  | 0, s, dots => (s, dots)
  | fuel + 1, s, dots =>
    if sEof s then (s, dots)
    else if sCur s = '.' then numLoop fuel (sNext s) (dots + 1)
    else if !isNum (sCur s) then (s, dots)
    else numLoop fuel (sNext s) dots

/-- The body loop of `scanString`; returns the state and whether the closing
quote was found on the current line. -/
def strLoop : Nat → ScanState → ScanState × Bool
  | 0, s => (s, false)
  | fuel + 1, s =>
    if sEof s then (s, false)
    else if sCur s = '"' then (sNext s, true)
    else if sCur s = '\n' then (s, false)
    else strLoop fuel (sNext s)

/-- The body loop of `scanByteString`; returns state, closed flag and the
character count between the quotes. -/
def byteLoop : Nat → ScanState → Nat → ScanState × Bool × Nat
  | 0, s, len => (s, false, len)
  | fuel + 1, s, len =>
    if sEof s then (s, false, len)
    else if sCur s = '\'' then (sNext s, true, len)
    else if sCur s = '\n' then (s, false, len)
    else byteLoop fuel (sNext s) (len + 1)

/-- `scanIdentifier` after its alpha guard. -/
def scanIdentCore (s : ScanState) : Token × ScanState :=
  let s1 := identLoop (s.src.length + 1) s
  let str := interval s1
  let typ := match keywords.lookup str with
    | some t => t
    | none => TokenType.IDENT
  ({ ttype := typ, lexeme := str, pos := tokenPos s1, endPos := tokenEndPos s1 }, s1)

/-- `scanNumber` after its digit guard. -/
def scanNumberCore (s : ScanState) : Token × ScanState :=
  let (s1, dots) := numLoop (s.src.length + 1) s 0
  let s2 := if decide (1 < dots) then
      sErr s1 "number literal can have at most one decimal point"
    else s1
  let typ := if decide (0 < dots) then TokenType.FLOAT_LIT else TokenType.INT_LIT
  ({ ttype := typ, lexeme := interval s2, invalid := decide (1 < dots),
     isFloat := decide (0 < dots), pos := tokenPos s2, endPos := tokenEndPos s2 }, s2)

/-- `scanString` after its quote guard (the opening quote is already known
to be present). -/
def scanStringCore (s : ScanState) : Token × ScanState :=
  let s1 := sNext s
  let (s2, closed) := strLoop (s.src.length + 1) s1
  let s3 := if closed then s2
    else sErr s2 "string literals must have a terminating quote on the same line"
  ({ ttype := .STRING_LIT, lexeme := interval s3, invalid := !closed,
     pos := tokenPos s3, endPos := tokenEndPos s3 }, s3)

/-- `scanByteString` after its quote guard. -/
def scanByteStringCore (s : ScanState) : Token × ScanState :=
  let s1 := sNext s
  let (s2, closed, len) := byteLoop (s.src.length + 1) s1 0
  let s3 := if closed then s2
    else sErr s2 "byte literals must have a terminating quote on the same line"
  let s4 := if decide (len ≠ 1) then
      sErr s3 "byte literals must have exactly one character"
    else s3
  ({ ttype := .BYTE_LIT, lexeme := interval s4, invalid := !closed || decide (len ≠ 1),
     pos := tokenPos s4, endPos := tokenEndPos s4 }, s4)

/-- `scanIllegal`. -/
def scanIllegal (s : ScanState) : Token × ScanState :=
  let s1 := sNext s
  let s2 := sErr s1 "illegal token"
  ({ ttype := .ILLEGAL, invalid := true, lexeme := interval s2,
     pos := tokenPos s2, endPos := tokenEndPos s2 }, s2)

/-- `scanSymbol`.  The Go function ranges over the `DoubleSymbols` map,
skipping entries whose first character differs from `cur`; since all keys
have pairwise distinct first characters this is equivalent to finding the
entry matching both `cur` and `peek`. -/
def scanSymbol (s : ScanState) : Token × ScanState :=
  match doubleSymbols.find? (fun e => e.1 == sCur s && e.2.1 == sPeek s) with
  | some e =>
    let s1 := sNext (sNext s)
    ({ ttype := e.2.2, lexeme := interval s1, pos := tokenPos s1, endPos := tokenEndPos s1 }, s1)
  | none =>
    match singleSymbols.find? (fun e => e.1 == sCur s) with
    | some e =>
      let s1 := sNext s
      ({ ttype := e.2, lexeme := interval s1, pos := tokenPos s1, endPos := tokenEndPos s1 }, s1)
    | none => scanIllegal s

/-- `scanIdentifier` / `scanNumber` / `scanString` / `scanByteString` /
`scanSymbol` dispatch chain (the non-recursive tail of the scanner). -/
def scanIdentifier (s : ScanState) : Token × ScanState :=
  if !isAlpha (sCur s) then
    if !isNum (sCur s) then
      if sCur s ≠ '"' then
        if sCur s ≠ '\'' then scanSymbol s
        else scanByteStringCore s
      else scanStringCore s
    else scanNumberCore s
  else scanIdentCore s

/-- `scanWhitespace` with `scanNewline` and `scanComment` inlined (in the
source they form a single non-branching dispatch chain; only the
`scanComment → scanWhitespace` loop-back recurses, and it consumes at
least two characters, so `src.length + 2` fuel suffices). -/
def scanWhitespace : Nat → ScanState → Token × ScanState
  | 0, s => (eofToken s, s)
  | fuel + 1, s =>
    let s1 := wsLoop (s.src.length + 1) s
    if sEof s1 then (eofToken s1, s1)
    else
      -- scanNewline
      if sCur s1 = '\n' then
        let p := tokenPos s1
        let ep0 := tokenEndPos s1
        let ep := { ep0 with col := ep0.col + 1, offset := ep0.offset + 1 }
        let s2 := sNext s1
        ({ ttype := .NEWLINE, lexeme := "NEWLINE", pos := p, endPos := ep }, s2)
      else
        -- scanComment: consume the comment body and the newline, restart
        if sCur s1 = '/' ∧ sPeek s1 = '/' then
          let s2 := commentLoop (s1.src.length + 1) s1
          let s3 := sNext s2
          scanWhitespace fuel s3
        else scanIdentifier s1

/-- `Scanner.Scan`. -/
def scan (s : ScanState) : Token × ScanState :=
  if sEof s then (eofToken s, s)
  else
    let (tok, s1) := scanWhitespace (s.src.length + 2) s
    (tok, { s1 with base := s1.pos, startCol := s1.col })

/-- The `ScanAll` loop: scan until an EOF token is produced (inclusive). -/
def scanAllAux : Nat → ScanState → List Token → List Token × ScanState
  | 0, s, acc => (acc, s)
  | fuel + 1, s, acc =>
    let (t, s1) := scan s
    let acc1 := acc ++ [t]
    if t.eof then (acc1, s1) else scanAllAux fuel s1 acc1

/-- `Scanner.ScanAll`. -/
def scanAll (s : ScanState) : List Token × ScanState :=
  scanAllAux (s.src.length + 2) s []

/-! ## AST (koi/ast)

The node structs are the ones the current parser constructs:
`Func{Public, Name, Params, RetType, Block}`, `Block`, `Return`,
`ExprStmt`, `Ident{Name, T}`, `Literal{T, Value}`, `Call`.  Go `nil`
pointers/interfaces (produced by the parser's panic-mode early returns)
are modelled as `Option`.  A `Block` carries a numeric identity `blkId`
standing for its Go pointer identity (each parsed block gets a fresh id);
the semantic table's block-keyed scope map is keyed by it. -/

/-- `ast.TypeKind` (types.go iteration: INT, FLOAT, STRING, BYTE, VOID, BOOL). -/
inductive TypeKind where
  | INT | FLOAT | STRING | BYTE | VOID | BOOL
  deriving DecidableEq, Repr

/-- `ast.TokenToTypeKind`; the Go function panics on any other token type,
modelled as `none`. -/
def tokenToTypeKind : TokenType → Option TypeKind
  | .STRING | .STRING_LIT => some .STRING
  | .BOOL | .TRUE | .FALSE => some .BOOL
  | .BYTE | .BYTE_LIT => some .BYTE
  | .FLOAT | .FLOAT_LIT => some .FLOAT
  | .INT | .INT_LIT => some .INT
  | .VOID => some .VOID
  | _ => none

/-- `ast.TypeKindToName` (total: the map covers every kind, so the panic
branch is unreachable). -/
def typeKindToName : TypeKind → String
  | .INT => "int"
  | .FLOAT => "float"
  | .STRING => "string"
  | .BYTE => "byte"
  | .VOID => "void"
  | .BOOL => "bool"

/-- `ast.PrimitiveType{Kind, T}` (the only `ast.Type` the parser builds). -/
inductive AstType where
  | prim (kind : TypeKind) (tk : Token)
  deriving DecidableEq, Repr

/-- `ast.PrimitiveType.String`: the token's lexeme. -/
def astTypeString : AstType → String
  | .prim _ tk => tk.lexeme

/-- `ast.Field`. -/
structure Field where
  name : Token
  ftype : Option AstType
  deriving DecidableEq, Repr

/-- `ast.NamedTuple` (the zero value has `Empty = false` and zero tokens,
matching Go's `&ast.NamedTuple{}` in the non-empty parse path). -/
structure NamedTuple where
  empty : Bool := false
  lparen : Token := {}
  fields : List Field := []
  rparen : Token := {}
  deriving DecidableEq, Repr

/-- Expressions: `ast.Ident`, `ast.Literal`, `ast.Call`. -/
inductive Expr where
  | ident (name : String) (tk : Token)
  | lit (tk : Token) (value : String)
  | call (callee : Option Expr) (lparen : Token) (args : List (Option Expr)) (rparen : Token)

mutual

/-- Statements: `ast.Return`, nested `ast.Block`, `ast.ExprStmt`. -/
inductive Stmt where
  | ret (retTk : Token) (e : Option Expr)
  | blockStmt (b : Block)
  | exprStmt (e : Option Expr)

/-- `ast.Block`. -/
inductive Block where
  | blk (blkId : Nat) (empty : Bool) (lbrace : Token) (stmts : List Stmt) (rbrace : Token)

end

def Block.blkId : Block → Nat
  | .blk i _ _ _ _ => i

def Block.stmts : Block → List Stmt
  | .blk _ _ _ s _ => s

/-- `ast.Func` (`Public, Name, Params, RetType, Block`). -/
structure Func where
  pub : Bool
  name : Token
  params : Option NamedTuple
  retType : Option AstType
  block : Option Block

/-- `ast.Ast.Nodes` (function declarations are the only top-level nodes the
parser produces). -/
def Ast := List Func

/-- `Ident.Pos`. -/
def identPos (tk : Token) : Pos := tk.pos

/-- `Ident.End` (the source returns `T.Pos`, not `T.EndPos`). -/
def identEnd (tk : Token) : Pos := tk.pos

/-- `Expr` position (`Pos()` of each node).  `Call` spans are not present in
the source snapshot and are never consulted by the checker (it panics on
call expressions before reporting any diagnostic on them). -/
def exprPos : Expr → Pos
  | .ident _ tk => identPos tk
  | .lit tk _ => tk.pos
  | .call _ lparen _ _ => lparen.pos

/-- `Expr` end position (`End()` of each node). -/
def exprEnd : Expr → Pos
  | .ident _ tk => identEnd tk
  | .lit tk _ => tk.endPos
  | .call _ _ _ rparen => rparen.endPos

/-- `Return.Pos`. -/
def returnPos (retTk : Token) : Pos := retTk.pos

/-- `Return.End`: the expression's end if present, else the keyword's end. -/
def returnEnd (retTk : Token) (e : Option Expr) : Pos :=
  match e with
  | some e' => exprEnd e'
  | none => retTk.endPos

/-- `Func.Pos`. -/
def funcPos (f : Func) : Pos := f.name.pos

/-- `Func.End`. -/
def funcEnd (f : Func) : Pos := f.name.endPos

/-! ## Parser (koi/parser/parser.go, the panic-mode iteration) -/

structure PState where
  file : File
  toks : List Token
  pos : Nat := 0
  panicMode : Bool := false
  base : Nat := 0
  numErrors : Nat := 0
  diags : List Diag := []
  nextBlockId : Nat := 0

/-- The zero `token.Token{Type: token.EOF, Eof: true}` sentinel. -/
def eofSentinel : Token :=
  { ttype := .EOF, eof := true }

def newParser (f : File) (toks : List Token) : PState :=
  { file := f, toks := toks }

def pEof (s : PState) : Bool :=
  decide (s.toks.length ≤ s.pos)

def pCur (s : PState) : Token :=
  if pEof s then eofSentinel else s.toks.getD s.pos eofSentinel

def pMatch (s : PState) (t : TokenType) : Bool :=
  (pCur s).ttype == t

/-- `matchMany` (`slices.Contains`). -/
def pMatchMany (s : PState) (ts : List TokenType) : Bool :=
  ts.contains (pCur s).ttype

def pNext (s : PState) : PState :=
  { s with pos := s.pos + 1 }

def pEofOrPanic (s : PState) : Bool :=
  pEof s || s.panicMode

def pPeek (s : PState) : Token :=
  if s.toks.length ≤ s.pos + 1 then eofSentinel else s.toks.getD (s.pos + 1) eofSentinel

def pPrev (s : PState) : Token :=
  if s.pos = 0 then eofSentinel else s.toks.getD (s.pos - 1) eofSentinel

def pConsume (s : PState) : Token × PState :=
  (pCur s, pNext s)

/-- `errFromTo`: suppressed in panic mode; otherwise records the rendered
diagnostic, enters panic mode (`p.panic()`: `base := pos`) and bumps
`NumErrors`. -/
def pErrFromTo (s : PState) (frm tto : Token) (msg : String) : PState :=
  if s.panicMode then s
  else
    { s with
      diags := s.diags ++
        [{ line := frm.pos.row + 1, lineStr := fileLine s.file frm.pos.row,
           msg := msg, colStart := frm.pos.col, colEnd := tto.endPos.col }]
      panicMode := true
      base := s.pos
      numErrors := s.numErrors + 1 }

def pErr (s : PState) (msg : String) : PState :=
  pErrFromTo s (pCur s) (pCur s) msg

/-- `expect`: consume only when the current token matches. -/
def pExpect (s : PState) (typ : TokenType) : Token × PState :=
  if !pMatch s typ then
    let s1 := pErr s ("expected " ++ tokenTypeString typ)
    (pCur s1, s1)
  else pConsume s

/-- The seek loop of `gotoNewline`. -/
def pGotoNewlineAux : Nat → PState → PState
  | 0, s => s
  | fuel + 1, s =>
    if !pEof s && !pMatch s .NEWLINE then pGotoNewlineAux fuel (pNext s) else s

/-- `gotoNewline`: skip to the next NEWLINE token (or EOF) and return it. -/
def pGotoNewline (s : PState) : Token × PState :=
  let s1 := pGotoNewlineAux (s.toks.length + 1) s
  (pCur s1, s1)

/-- The seek loop of `recover`: stops only at `IF`, `FUNC`, `FOR`, `RETURN`
(notably not at `NEWLINE`). -/
def pRecoverAux : Nat → PState → PState
  | 0, s => s
  | fuel + 1, s =>
    if pEof s then s
    else
      match (pCur s).ttype with
      | .IF | .FUNC | .FOR | .RETURN => s
      | _ => pRecoverAux fuel (pNext s)

/-- `recover`: leave panic mode, reset `pos` to `base`, seek to the next
statement keyword.  (No parser code path ever calls this function.) -/
def pRecover (s : PState) : PState :=
  pRecoverAux (s.toks.length + 1) { s with panicMode := false, pos := s.base }

/-- `parseType`.  In the primitive branch `ast.TokenToTypeKind` cannot
panic: the `matchMany` guard admits exactly the six type tokens, all of
which have a kind (the `.getD` default is therefore never used). -/
def parseType (s : PState) : Option AstType × PState :=
  if s.panicMode then (none, s)
  else
    let start := pCur s
    if pMatch s .NEWLINE then (none, pErr s "expected type")
    else if pMatchMany s [.STRING, .VOID, .INT, .FLOAT, .BYTE, .BOOL] then
      let (t, s1) := pConsume s
      (some (.prim ((tokenToTypeKind t.ttype).getD .VOID) t), s1)
    else (none, pErrFromTo s start (pCur s) "invalid type")

/-- The field loop of `parseNamedTuple`; returns the collected fields. -/
def tupleLoop : Nat → PState → List Field → List Field × PState
  | 0, s, fields => (fields, s)
  | fuel + 1, s, fields =>
    if !pEofOrPanic s then
      let (name, s1) := pExpect s .IDENT
      let (typ, s2) := parseType s1
      let fields1 := fields ++ [{ name := name, ftype := typ }]
      if pMatch s2 .RPAREN then (fields1, s2)
      else
        let (_, s3) := pExpect s2 .COMMA
        tupleLoop fuel s3 fields1
    else (fields, s)

/-- `parseNamedTuple`.  Note the Go non-empty path returns `&ast.NamedTuple{}`
with only `Fields` filled in (`LParen`/`RParen` stay zero, `Empty` stays
false). -/
def parseNamedTuple (s : PState) : Option NamedTuple × PState :=
  if s.panicMode then (none, s)
  else
    let (lparen, s1) := pExpect s .LPAREN
    if pMatch s1 .RPAREN then
      let (rparen, s2) := pConsume s1
      (some { empty := true, lparen := lparen, rparen := rparen }, s2)
    else
      let (fields, s2) := tupleLoop (s1.toks.length + 2) s1 []
      let s3 := pNext s2  -- Right paren
      (some { fields := fields }, s3)

/-- `parseLiteral`. -/
def parseLiteral (s : PState) : Option Expr × PState :=
  if pMatch s .IDENT then
    let (t, s1) := pConsume s
    (some (.ident t.lexeme t), s1)
  else if !pMatchMany s [.INT_LIT, .FLOAT_LIT, .STRING_LIT, .TRUE, .FALSE, .NIL, .BYTE_LIT] then
    let frm := pCur s
    let (_, s1) := pGotoNewline s
    let s2 := pErrFromTo s1 frm (pPrev s1) "invalid expression"
    (none, s2)
  else
    let (t, s1) := pConsume s
    (some (.lit t t.lexeme), s1)

/-! The mutually recursive parse functions are defunctionalized into two
fuel-structural "engines" (one per recursive clique) so that concrete runs
reduce inside the kernel; each engine arm is the body of the corresponding
Go function, and the named wrappers below restore the source's call
surface.  Every internal call decrements the fuel, which therefore bounds
the call depth rather than the loop counts; the top-level `parse` supplies
fuel that dominates both. -/

/-- The expression clique: `parseExpr`, the precedence ladder
(`parseEquality` … `parseUnary`), `parseCall` (with its chained-call and
argument loops) and `parseGroup`. -/
inductive ExprJob where
  | exprJ | equalityJ | comparisonJ | termJ | factorJ | unaryJ | callJ | groupJ
  | callLoopJ (callee : Option Expr)
  | argsLoopJ (args : List (Option Expr))

inductive ExprOut where
  | exprO (e : Option Expr)
  | argsO (l : List (Option Expr))

def exprEngine : Nat → ExprJob → PState → ExprOut × PState
  | 0, _, s => (.exprO none, s)
  | fuel + 1, job, s =>
    match job with
    -- parseExpr
    | .exprJ =>
      match (pCur s).ttype with
      | .NEWLINE => (.exprO none, s)
      | .RBRACE => (.exprO none, s)
      | _ => exprEngine fuel .equalityJ s
    -- the stubbed precedence ladder
    | .equalityJ => exprEngine fuel .comparisonJ s
    | .comparisonJ => exprEngine fuel .termJ s
    | .termJ => exprEngine fuel .factorJ s
    | .factorJ => exprEngine fuel .unaryJ s
    | .unaryJ => exprEngine fuel .callJ s
    -- parseCall
    | .callJ =>
      match exprEngine fuel .groupJ s with
      | (.exprO callee, s1) => exprEngine fuel (.callLoopJ callee) s1
      | (out, s1) => (out, s1)  -- groupJ only produces exprO
    -- parseGroup
    | .groupJ =>
      let (e, s1) := parseLiteral s
      (.exprO e, s1)
    -- the chained-call loop of parseCall; the empty-argument branch
    -- returns the call immediately (it does not continue the loop),
    -- exactly as in the source
    | .callLoopJ callee =>
      if pMatch s .LPAREN then
        let (lparen, s1) := pConsume s
        if pMatch s1 .RPAREN then
          let (rparen, s2) := pConsume s1
          (.exprO (some (.call callee lparen [] rparen)), s2)
        else
          match exprEngine fuel (.argsLoopJ []) s1 with
          | (.argsO args, s2) =>
            let s3 := if !pMatch s2 .RPAREN then pErr s2 "expected ) after argument list" else s2
            let (rparen, s4) := pConsume s3
            exprEngine fuel (.callLoopJ (some (.call callee lparen args rparen))) s4
          | (out, s2) => (out, s2)  -- argsLoopJ only produces argsO
      else (.exprO callee, s)
    -- the argument loop inside parseCall
    | .argsLoopJ args =>
      match exprEngine fuel .exprJ s with
      | (.exprO e, s1) =>
        let args1 := args ++ [e]
        if !pMatch s1 .COMMA then (.argsO args1, s1)
        else exprEngine fuel (.argsLoopJ args1) (pNext s1)
      | (out, s1) => (out, s1)

def toExprRes : ExprOut × PState → Option Expr × PState
  | (.exprO e, s) => (e, s)
  | (.argsO _, s) => (none, s)  -- unreachable: the expr jobs produce exprO

/-- `parseExpr`. -/
def parseExpr (fuel : Nat) (s : PState) : Option Expr × PState :=
  toExprRes (exprEngine fuel .exprJ s)

/-- `parseReturn`. -/
def parseReturn (fuel : Nat) (s : PState) : Stmt × PState :=
  let (ret, s1) := pConsume s  -- Return keyword is guaranteed
  if pMatch s1 .NEWLINE then (.ret ret none, pNext s1)
  else
    let (e, s2) := parseExpr fuel s1
    (.ret ret e, s2)

/-- The statement clique: `parseStmt`, `parseBlock` and its statement
loop. -/
inductive StmtJob where
  | stmtJ
  | blockJ
  | blockLoopJ (stmts : List Stmt)

inductive StmtOut where
  | stmtO (st : Option Stmt)
  | blockO (b : Option Block)
  | stmtsO (l : List Stmt)

def stmtEngine : Nat → StmtJob → PState → StmtOut × PState
  | 0, _, s => (.stmtO none, s)
  | fuel + 1, job, s =>
    match job with
    -- parseStmt
    | .stmtJ =>
      if s.panicMode then (.stmtO none, s)
      else
        match (pCur s).ttype with
        | .RETURN =>
          let (r, s1) := parseReturn fuel s
          (.stmtO (some r), s1)
        | .LBRACE =>
          match stmtEngine fuel .blockJ s with
          | (.blockO b, s1) => (.stmtO (b.map .blockStmt), s1)
          | (out, s1) => (out, s1)  -- blockJ only produces blockO
        | _ =>
          let (e, s1) := parseExpr fuel s
          (.stmtO (some (.exprStmt e)), s1)
    -- parseBlock
    | .blockJ =>
      if s.panicMode then (.blockO none, s)
      else
        let (lbrace, s1) := pExpect s .LBRACE
        match stmtEngine fuel (.blockLoopJ []) s1 with
        | (.stmtsO stmts, s2) =>
          let (rbrace, s3) := pExpect s2 .RBRACE
          let bid := s3.nextBlockId
          let s4 := { s3 with nextBlockId := bid + 1 }
          (.blockO (some (.blk bid (stmts.length == 0) lbrace stmts rbrace)), s4)
        | (out, s2) => (out, s2)  -- blockLoopJ only produces stmtsO
    -- the statement loop of parseBlock; parseStmt cannot return nil here
    -- (panic mode is excluded by the loop guard), so the Option.toList
    -- append adds exactly the parsed statement
    | .blockLoopJ stmts =>
      if !pEofOrPanic s && !pMatch s .RBRACE then
        if pMatch s .NEWLINE then stmtEngine fuel (.blockLoopJ stmts) (pNext s)
        else
          match stmtEngine fuel .stmtJ s with
          | (.stmtO st, s1) =>
            if !pMatchMany s1 [.NEWLINE, .RBRACE] then
              let frm := pCur s1
              let (_, s2) := pGotoNewline s1
              let s3 := pErrFromTo s2 frm (pPrev s2) "expected end of statement"
              stmtEngine fuel (.blockLoopJ stmts) s3
            else stmtEngine fuel (.blockLoopJ (stmts ++ st.toList)) s1
          | (out, s1) => (out, s1)
      else (.stmtsO stmts, s)

/-- `parseStmt`. -/
def parseStmt (fuel : Nat) (s : PState) : Option Stmt × PState :=
  match stmtEngine fuel .stmtJ s with
  | (.stmtO st, s1) => (st, s1)
  | (_, s1) => (none, s1)  -- unreachable

/-- `parseBlock`. -/
def parseBlock (fuel : Nat) (s : PState) : Option Block × PState :=
  match stmtEngine fuel .blockJ s with
  | (.blockO b, s1) => (b, s1)
  | (_, s1) => (none, s1)  -- unreachable

/-- `parseFunc`. -/
def parseFunc (fuel : Nat) (s : PState) : Func × PState :=
  let (isPub, s1) := if pMatch s .PUB then (true, pNext s) else (false, s)
  let s2 := pNext s1  -- Func keyword which is guaranteed
  let (name, s3) := pExpect s2 .IDENT
  let (params, s4) := parseNamedTuple s3
  let s5 := if pMatch s4 .LBRACE then pErr s4 "expected return type" else s4
  let (typ, s6) := parseType s5
  let (block, s7) := parseBlock fuel s6
  ({ pub := isPub, name := name, params := params, retType := typ, block := block }, s7)

/-- The declaration loop of `Parser.Parse`; the default case reports
"unknown top level statement" and breaks. -/
def parseLoop : Nat → PState → List Func → List Func × PState
  | 0, s, nodes => (nodes, s)
  | fuel + 1, s, nodes =>
    if pEof s then (nodes, s)
    else if pMatch s .EOF then (nodes, s)
    else if pMatch s .NEWLINE then parseLoop fuel (pNext s) nodes
    else if pMatch s .FUNC || pMatch s .PUB then
      let (n, s1) := parseFunc (4 * s.toks.length + 16) s
      parseLoop fuel s1 (nodes ++ [n])
    else (nodes, pErr s "unknown top level statement")

/-- `Parser.Parse`. -/
def parse (s : PState) : Ast × PState :=
  if pEof s then ([], s)
  else parseLoop (s.toks.length + 2) s []

/-! ## Types and the semantic table (koi/types)

`types.Type` as constructed by the checker is always
`types.PrimitiveType{kind ast.TypeKind}`.  The scope tree is an arena of
`ScopeR` records indexed by `Nat`, with Go's `parent` and `Symbol.Scope`
back-pointers stored as indices; scope 0 is the global scope.  Scope maps
(`map[string]*Symbol`, `map[*ast.Block]*Scope`) become association lists
with insert-or-replace update, which has the same lookup semantics. -/

/-- `types.PrimitiveType` (from the `TypeEquals` iteration). -/
inductive Ty where
  | prim (kind : TypeKind)
  deriving DecidableEq, Repr

/-- `types.PrimitiveType.String` = `ast.TypeKindToName`. -/
def tyString : Ty → String
  | .prim k => typeKindToName k

/-- `types.voidType`. -/
def voidType : Ty := .prim .VOID

/-- `types.TypeEquals`: string equality of the canonical names. -/
def typeEquals (a b : Ty) : Bool :=
  tyString a == tyString b

/-- `types.SymbolKind`. -/
inductive SymbolKind where
  | VarSymbol | ConstSymbol | FuncSymbol | TypeSymbol
  deriving DecidableEq, Repr

/-- `types.Symbol`; `scope` is the arena index of the scope the symbol was
declared in (Go's `Scope *Scope` back-pointer). -/
structure Symbol where
  kind : SymbolKind
  name : String
  refCount : Nat := 0
  exported : Bool := false
  typ : Ty
  scope : Nat := 0
  pos : Pos := {}
  deriving DecidableEq, Repr

/-- `types.Scope` as an arena record. -/
structure ScopeR where
  parent : Option Nat
  children : List Nat := []
  symbols : List (String × Symbol) := []
  ret : Ty := voidType
  hasReturned : Bool := false
  deriving DecidableEq, Repr

/-- `types.SemanticTable`; `scopeMap` is keyed by `Block.blkId` (the block's
pointer identity), with `none` standing for a nil block pointer. -/
structure SemanticTable where
  scopes : Array ScopeR
  current : Nat
  scopeMap : List (Option Nat × Nat) := []
  deriving DecidableEq, Repr

/-- `types.NewSemanticTable`. -/
def newSemanticTable : SemanticTable :=
  { scopes := #[{ parent := none }], current := 0 }

/-- Go map insert-or-replace on an association list. -/
def setSym : List (String × Symbol) → String → Symbol → List (String × Symbol)
  | [], n, sym => [(n, sym)]
  | (k, v) :: rest, n, sym =>
    if k = n then (n, sym) :: rest else (k, v) :: setSym rest n sym

def setScopeMap : List (Option Nat × Nat) → Option Nat → Nat → List (Option Nat × Nat)
  | [], k, v => [(k, v)]
  | (k0, v0) :: rest, k, v =>
    if k0 = k then (k, v) :: rest else (k0, v0) :: setScopeMap rest k v

/-- Point update of one arena slot. -/
def updScope (scopes : Array ScopeR) (i : Nat) (f : ScopeR → ScopeR) : Array ScopeR :=
  if h : i < scopes.size then scopes.set ⟨i, h⟩ (f (scopes.get ⟨i, h⟩)) else scopes

/-- `Scope.Symbol`: look the name up in scope `idx` or its parents; on a
hit, increment that symbol's `RefCount` (the only mutation) and return the
updated symbol.  The fuel bounds the parent-chain walk; `scopes.size`
dominates it for the acyclic chains the checker builds. -/
def scopeSymbolAux : Nat → SemanticTable → Nat → String → Option Symbol × SemanticTable
  | 0, t, _, _ => (none, t)
  | fuel + 1, t, idx, name =>
    match t.scopes.get? idx with
    | none => (none, t)
    | some sc =>
      match sc.symbols.lookup name with
      | some sym =>
        let sym' := { sym with refCount := sym.refCount + 1 }
        (some sym',
         { t with scopes := updScope t.scopes idx (fun sc0 => { sc0 with symbols := setSym sc0.symbols name sym' }) })
      | none =>
        match sc.parent with
        | some p => scopeSymbolAux fuel t p name
        | none => (none, t)

/-- `SemanticTable.Symbol` (= `Scope.Symbol` on the current scope). -/
def tableSymbol (t : SemanticTable) (name : String) : Option Symbol × SemanticTable :=
  scopeSymbolAux t.scopes.size t t.current name

/-- `Scope.Declare` via `SemanticTable.Declare`: set the symbol's scope
back-pointer and insert it into the current scope's map. -/
def tableDeclare (t : SemanticTable) (sym : Symbol) : SemanticTable :=
  let sym' := { sym with scope := t.current }
  let scopes' := updScope t.scopes t.current
    (fun sc => { sc with symbols := setSym sc.symbols sym'.name sym' })
  { t with scopes := scopes' }

/-- `SemanticTable.PushScope(block)`: new child scope inheriting the parent
return type, recorded under the block key, becoming current. -/
def pushScope (t : SemanticTable) (blockKey : Option Nat) : SemanticTable :=
  let parentRet := ((t.scopes.get? t.current).map ScopeR.ret).getD voidType
  let idx := t.scopes.size
  let scope : ScopeR := { parent := some t.current, ret := parentRet }
  { t with
    scopes := (updScope t.scopes t.current (fun sc => { sc with children := sc.children ++ [idx] })).push scope
    scopeMap := setScopeMap t.scopeMap blockKey idx
    current := idx }

/-- `SemanticTable.PopScope`: back to the parent.  (Popping the global
scope would leave Go with a nil current-scope pointer; that path is never
exercised and is modelled as a no-op.) -/
def popScope (t : SemanticTable) : SemanticTable :=
  match (t.scopes.get? t.current).bind ScopeR.parent with
  | some p => { t with current := p }
  | none => t

/-- `SemanticTable.SetReturnType`. -/
def setReturnType (t : SemanticTable) (ty : Ty) : SemanticTable :=
  { t with scopes := updScope t.scopes t.current (fun sc => { sc with ret := ty }) }

/-- `SemanticTable.ReturnType`. -/
def tableReturnType (t : SemanticTable) : Ty :=
  ((t.scopes.get? t.current).map ScopeR.ret).getD voidType

/-- `SemanticTable.MarkReturned`. -/
def markReturned (t : SemanticTable) : SemanticTable :=
  { t with scopes := updScope t.scopes t.current (fun sc => { sc with hasReturned := true }) }

/-- `SemanticTable.HasReturned`. -/
def tableHasReturned (t : SemanticTable) : Bool :=
  ((t.scopes.get? t.current).map ScopeR.hasReturned).getD false

/-! ## Checker (koi/types/check.go) -/

structure CheckState where
  file : File
  table : SemanticTable
  numErrors : Nat := 0
  diags : List Diag := []

/-- `Checker.err` (renders through `ErrorHandler.Pretty` with the node's
`Pos()`/`End()` columns). -/
def cErr (s : CheckState) (posv endv : Pos) (msg : String) : CheckState :=
  { s with
    numErrors := s.numErrors + 1
    diags := s.diags ++
      [{ line := posv.row + 1, lineStr := fileLine s.file posv.row, msg := msg,
         colStart := posv.col, colEnd := endv.col }] }

/-- `Checker.visitType`: primitive types only; any other node (including a
nil one) hits the Go `panic("unhandled type in visitType")`. -/
def visitType : Option AstType → Except String Ty
  | some (.prim k _) => .ok (.prim k)
  | none => .error "unhandled type in visitType"

/-- `Checker.evalLiteral`; `ast.TokenToTypeKind` panics on kinds it does not
know (e.g. `nil` literals). -/
def evalLiteral (tk : Token) : Except String Ty :=
  match tokenToTypeKind tk.ttype with
  | some k => .ok (.prim k)
  | none => .error "token type without kind"

/-- `Checker.evalIdent`: resolve through the scope chain (bumping the
symbol's RefCount); only VAR/CONST symbols are usable as values. -/
def evalIdent (s : CheckState) (name : String) (tk : Token) : Option Ty × CheckState :=
  match tableSymbol s.table name with
  | (some sym, t') =>
    let s1 := { s with table := t' }
    if sym.kind ≠ .VarSymbol && sym.kind ≠ .ConstSymbol then
      (none, cErr s1 (identPos tk) (identEnd tk) "cannot use symbol as identifier")
    else (some sym.typ, s1)
  | (none, t') =>
    (none, cErr { s with table := t' } (identPos tk) (identEnd tk) (name ++ " is undefined"))

/-- `Checker.evalExpr`: literals and identifiers; anything else (calls, nil
expressions) hits the Go `panic("unhandled expression type")`. -/
def evalExpr (s : CheckState) : Option Expr → Except String (Option Ty × CheckState)
  | some (.lit tk _) =>
    match evalLiteral tk with
    | .error m => .error m
    | .ok t => .ok (some t, s)
  | some (.ident n tk) => .ok (evalIdent s n tk)
  | some (.call _ _ _ _) => .error "unhandled expression type"
  | none => .error "unhandled expression type"

/-- `Checker.VisitReturn`. -/
def visitReturn (s : CheckState) (retTk : Token) (e : Option Expr) : Except String CheckState :=
  let retType := tableReturnType s.table
  let s1 := { s with table := markReturned s.table }
  match e with
  | none =>
    if !typeEquals voidType retType then
      .ok (cErr s1 (returnPos retTk) (returnEnd retTk none)
        ("expected return type " ++ tyString retType))
    else .ok s1
  | some e' =>
    match evalExpr s1 (some e') with
    | .error m => .error m
    | .ok (none, s2) => .ok s2
    | .ok (some t, s2) =>
      if !typeEquals t retType then
        .ok (cErr s2 (exprPos e') (exprEnd e')
          ("expected return type " ++ tyString retType ++ ", got " ++ tyString t))
      else .ok s2

/-- Recursion-depth budget for the checker/builder statement walks.  The
Go walks recurse on the AST with no bound other than the call stack; the
engines below consume one unit per nested call, so any AST of depth below
this bound (every AST arising in this development, and any a real parse
could produce from a source the budget's size) is walked exactly like the
source, and deeper ones yield an error, modelling stack exhaustion. -/
def recFuel : Nat := 1000000

/-- The checker's statement walk (`stmt.Accept(c)` dispatch, `VisitBlock`,
and the statement-list loops), defunctionalized into one fuel-structural
engine so that concrete runs reduce in the kernel. -/
inductive CheckJob where
  | one (st : Stmt)
  | blockJ (b : Block)
  | many (l : List Stmt)

def checkEngine : Nat → CheckState → CheckJob → Except String CheckState
  | 0, _, _ => .error "checker recursion fuel exhausted"
  | fuel + 1, s, job =>
    match job with
    -- stmt.Accept(c): the Checker implements no VisitExprStmt method in
    -- the source snapshot, so dispatching an expression statement cannot
    -- succeed
    | .one st =>
      match st with
      | .ret tk e => visitReturn s tk e
      | .blockStmt b => checkEngine fuel s (.blockJ b)
      | .exprStmt _ => .error "no VisitExprStmt method on Checker"
    -- Checker.VisitBlock: push the block's scope, walk, pop
    | .blockJ b =>
      match b with
      | .blk bid _ _ stmts _ =>
        let s1 := { s with table := pushScope s.table (some bid) }
        match checkEngine fuel s1 (.many stmts) with
        | .error m => .error m
        | .ok s2 => .ok { s2 with table := popScope s2.table }
    -- the statement loops in VisitBlock / visitBlockWithoutScope
    | .many [] => .ok s
    | .many (st :: rest) =>
      match checkEngine fuel s (.one st) with
      | .error m => .error m
      | .ok s1 => checkEngine fuel s1 (.many rest)

/-- Statement dispatch (`stmt.Accept(c)`). -/
def visitStmt (s : CheckState) (st : Stmt) : Except String CheckState :=
  checkEngine recFuel s (.one st)

/-- `Checker.VisitBlock`. -/
def visitBlockC (s : CheckState) (b : Block) : Except String CheckState :=
  checkEngine recFuel s (.blockJ b)

def visitStmts (s : CheckState) (l : List Stmt) : Except String CheckState :=
  checkEngine recFuel s (.many l)

/-- `Checker.visitBlockWithoutScope`. -/
def visitBlockWithoutScope (s : CheckState) (b : Block) : Except String CheckState :=
  visitStmts s b.stmts

/-- `Checker.visitMain`: `main` must have no parameters, return `int`
(compared on the type's string, i.e. the token lexeme), and be public. -/
def visitMain (s : CheckState) (f : Func) : Except String CheckState :=
  match f.params with
  | none => .error "nil pointer dereference: node.Params"
  | some nt =>
    let s1 := if decide (nt.fields.length ≠ 0) then
        cErr s (funcPos f) (funcEnd f) "main function cannot have parameters"
      else s
    match f.retType with
    | none => .error "nil pointer dereference: node.RetType"
    | some rt =>
      let s2 := if decide (astTypeString rt ≠ "int") then
          cErr s1 (funcPos f) (funcEnd f) "main function must return int type"
        else s1
      let s3 := if !f.pub then
          cErr s2 (funcPos f) (funcEnd f) "main function must be public"
        else s2
      .ok s3

/-- The parameter-declaration loop of `Checker.VisitFunc`. -/
def declareParams (s : CheckState) : List Field → Except String CheckState
  | [] => .ok s
  | p :: rest =>
    match visitType p.ftype with
    | .error m => .error m
    | .ok typ =>
      let sym : Symbol := { name := p.name.lexeme, kind := .VarSymbol, pos := p.name.pos, typ := typ }
      declareParams { s with table := tableDeclare s.table sym } rest

/-- `Checker.VisitFunc`. -/
def visitFunc (s : CheckState) (f : Func) : Except String CheckState :=
  let name := f.name.lexeme
  match (if name = "main" then visitMain s f else .ok s) with
  | .error m => .error m
  | .ok s1 =>
    match tableSymbol s1.table name with
    | (some fsym, t') =>
      .ok (cErr { s1 with table := t' } (funcPos f) (funcEnd f)
        ("function " ++ name ++ " already declared on line " ++ toString (fsym.pos.row + 1)))
    | (none, t') =>
      let s2 := { s1 with table := t' }
      match visitType f.retType with
      | .error m => .error m
      | .ok retType =>
        let funcSymbol : Symbol :=
          { name := f.name.lexeme, exported := f.pub, kind := .FuncSymbol,
            pos := funcPos f, typ := retType }
        let s3 := { s2 with table := tableDeclare s2.table funcSymbol }
        let s4 := { s3 with table := pushScope s3.table (f.block.map Block.blkId) }
        let s5 := { s4 with table := setReturnType s4.table retType }
        match f.params with
        | none => .error "nil pointer dereference: node.Params"
        | some nt =>
          match declareParams s5 nt.fields with
          | .error m => .error m
          | .ok s6 =>
            match f.block with
            | none => .error "nil pointer dereference: node.Block"
            | some b =>
              match visitBlockWithoutScope s6 b with
              | .error m => .error m
              | .ok s7 =>
                let s8 :=
                  if !tableHasReturned s7.table && !typeEquals retType voidType then
                    cErr s7 (funcPos f) (funcEnd f) "function never returns"
                  else s7
                .ok { s8 with table := popScope s8.table }

def checkFuncs (s : CheckState) : List Func → Except String CheckState
  | [] => .ok s
  | f :: rest =>
    match visitFunc s f with
    | .error m => .error m
    | .ok s1 => checkFuncs s1 rest

/-- `Checker.Check`: walk the tree from a fresh semantic table. -/
def check (f : File) (tree : Ast) : Except String CheckState :=
  checkFuncs { file := f, table := newSemanticTable } tree

/-! ## TableReader (koi/types/reader.go) -/

/-- `TableReader.Get`: panics (modelled as error) when the symbol is
missing; a successful lookup bumps the RefCount like any other. -/
def trGet (t : SemanticTable) (name : String) : Except String (Symbol × SemanticTable) :=
  match tableSymbol t name with
  | (some sym, t') => .ok (sym, t')
  | (none, _) => .error ("undefined symbol after type check: " ++ name)

/-- `TableReader.Push`: jump to the scope recorded for the block. -/
def trPush (t : SemanticTable) (blockKey : Option Nat) : Except String SemanticTable :=
  match t.scopeMap.lookup blockKey with
  | some idx => .ok { t with current := idx }
  | none => .error "block with no assigned scope"

/-- `TableReader.Pop`. -/
def trPop (t : SemanticTable) : SemanticTable :=
  popScope t

/-! ## IR builder (koi/ir) -/

/-- `ir.OpCode`. -/
inductive OpCode where
  | NOP | FUNC | RET | STORE_INT64 | STORE_STR | STORE_FLOAT64 | STORE_BOOL
  deriving DecidableEq, Repr

/-- `ir.Value` (`{ID, Type, Value}`); `vtype` 0 is `Literal`, 1 is
`Variable`, matching the Go iota constants. -/
structure IrValue where
  id : Nat := 0
  vtype : Nat := 0
  value : String := ""
  deriving DecidableEq, Repr

/-- `ir.Instruction`. -/
structure Instruction where
  op : OpCode
  name : String := ""
  pub : Bool := false
  retType : Option Ty := none
  dest : IrValue := {}
  value : IrValue := {}
  deriving DecidableEq, Repr

structure BuildState where
  table : SemanticTable
  ir : List Instruction := []
  ctr : Nat := 0
  curIdx : Nat := 0

/-- `strings.Trim(value, "\"")`: strip all leading and trailing quote
characters. -/
def trimQuotes (v : String) : String :=
  String.mk (((v.data.dropWhile (fun c => c = '"')).reverse.dropWhile (fun c => c = '"')).reverse)

/-- `Builder.VisitLiteral`: pick the store opcode from the literal kind and
emit into the current destination register; unsupported kinds hit the Go
`panic("unsupported literal kind: ...")`. -/
def buildVisitLiteral (s : BuildState) (tk : Token) (v : String) : Except String BuildState :=
  match tokenToTypeKind tk.ttype with
  | none => .error "token type without kind"
  | some kind =>
    let emit := fun (op : OpCode) (v' : String) =>
      Except.ok { s with ir := s.ir ++
        [{ op := op, dest := { id := s.curIdx }, value := { vtype := 0, value := v' } }] }
    match kind with
    | .INT => emit .STORE_INT64 v
    | .FLOAT => emit .STORE_FLOAT64 v
    | .STRING => emit .STORE_STR (trimQuotes v)
    | .BOOL => emit .STORE_BOOL v
    | _ => .error "unsupported literal kind"

/-- Expression dispatch in the builder: `VisitIdent` and `VisitCall` have
empty bodies (placeholders) and emit nothing. -/
def buildExpr (s : BuildState) : Expr → Except String BuildState
  | .lit tk v => buildVisitLiteral s tk v
  | .ident _ _ => .ok s
  | .call _ _ _ _ => .ok s

/-- `Builder.VisitReturn`: allocate a fresh vreg, make it the current
destination, lower the expression, emit `RET`; a valueless return hits
`log.Fatal("noval return not implemented")`. -/
def buildVisitReturn (s : BuildState) (e : Option Expr) : Except String BuildState :=
  match e with
  | some e' =>
    let result := s.ctr
    let s1 := { s with ctr := s.ctr + 1, curIdx := result }
    match buildExpr s1 e' with
    | .error m => .error m
    | .ok s2 =>
      .ok { s2 with ir := s2.ir ++ [{ op := .RET, value := { vtype := 1, id := result } }] }
  | none => .error "noval return not implemented"

/-- The builder's statement walk, defunctionalized like the checker's. -/
inductive BuildJob where
  | one (st : Stmt)
  | blockJ (b : Block)
  | many (l : List Stmt)

def buildEngine : Nat → BuildState → BuildJob → Except String BuildState
  | 0, _, _ => .error "builder recursion fuel exhausted"
  | fuel + 1, s, job =>
    match job with
    -- stmt.Accept(b): no VisitExprStmt method exists on the Builder
    | .one st =>
      match st with
      | .ret _ e => buildVisitReturn s e
      | .blockStmt b => buildEngine fuel s (.blockJ b)
      | .exprStmt _ => .error "no VisitExprStmt method on Builder"
    -- Builder.VisitBlock: tr.Push(block), walk, tr.Pop()
    | .blockJ b =>
      match b with
      | .blk bid _ _ stmts _ =>
        match trPush s.table (some bid) with
        | .error m => .error m
        | .ok t =>
          match buildEngine fuel { s with table := t } (.many stmts) with
          | .error m => .error m
          | .ok s1 => .ok { s1 with table := trPop s1.table }
    | .many [] => .ok s
    | .many (st :: rest) =>
      match buildEngine fuel s (.one st) with
      | .error m => .error m
      | .ok s1 => buildEngine fuel s1 (.many rest)

/-- Statement dispatch in the builder. -/
def buildStmt (s : BuildState) (st : Stmt) : Except String BuildState :=
  buildEngine recFuel s (.one st)

/-- `Builder.VisitBlock`. -/
def buildBlock (s : BuildState) (b : Block) : Except String BuildState :=
  buildEngine recFuel s (.blockJ b)

def buildStmts (s : BuildState) (l : List Stmt) : Except String BuildState :=
  buildEngine recFuel s (.many l)

/-- `Builder.VisitFunc`: emit `FUNC` (looking the return type up through the
reader, which bumps the RefCount), fatal on parameters, then lower the
body. -/
def buildVisitFunc (s : BuildState) (f : Func) : Except String BuildState :=
  let funcName := f.name.lexeme
  match trGet s.table funcName with
  | .error m => .error m
  | .ok (sym, t') =>
    let funcInstr : Instruction :=
      { op := .FUNC, name := funcName, pub := f.pub, retType := some sym.typ }
    let s1 := { s with table := t', ir := s.ir ++ [funcInstr] }
    match f.params with
    | none => .error "nil pointer dereference: node.Params"
    | some nt =>
      if decide (nt.fields.length ≠ 0) then .error "param ir not implemented"
      else
        match f.block with
        | none => .error "nil pointer dereference: node.Block"
        | some b => buildBlock s1 b

def buildFuncs (s : BuildState) : List Func → Except String BuildState
  | [] => .ok s
  | f :: rest =>
    match buildVisitFunc s f with
    | .error m => .error m
    | .ok s1 => buildFuncs s1 rest

/-- `Builder.Build` (`tree.Walk(b)`); the builder's own error handler never
receives an error, so a completed build returns the instructions. -/
def build (tree : Ast) (table : SemanticTable) :
    Except String (List Instruction × SemanticTable) :=
  match buildFuncs { table := table } tree with
  | .error m => .error m
  | .ok s => .ok (s.ir, s.table)

/-! ## IR printer (koi/ir/print.go IrFmt) -/

/-- Rendering of a missing `RetType` would be a nil-interface method call in
Go; the builder always sets it on `FUNC` instructions. -/
def tyStringOpt : Option Ty → String
  | some t => tyString t
  | none => "<nil>"

def storeLine (tag : String) (op : Instruction) : String :=
  if op.value.vtype = 0 then
    "$" ++ toString op.dest.id ++ " " ++ tag ++ " = " ++ op.value.value ++ "\n"
  else
    "$" ++ toString op.dest.id ++ " " ++ tag ++ " = $" ++ toString op.value.id ++ "\n"

def irFmtAux : List Instruction → Nat → String
  | [], _ => ""
  | op :: rest, indent =>
    let pre := String.join (List.replicate indent "  ")
    match op.op with
    | .FUNC =>
      let line :=
        if op.pub then "PUB FUNC " ++ op.name ++ " -> " ++ tyStringOpt op.retType ++ "\n"
        else "FUNC " ++ op.name ++ " -> " ++ tyStringOpt op.retType ++ "\n"
      pre ++ line ++ irFmtAux rest (indent + 1)
    | .STORE_INT64 => pre ++ storeLine "i64" op ++ irFmtAux rest indent
    | .STORE_FLOAT64 => pre ++ storeLine "f64" op ++ irFmtAux rest indent
    | .STORE_STR => pre ++ storeLine "string" op ++ irFmtAux rest indent
    | .STORE_BOOL => pre ++ storeLine "bool" op ++ irFmtAux rest indent
    | .RET => pre ++ "RET $" ++ toString op.value.id ++ "\n" ++ irFmtAux rest indent
    | _ => pre ++ "unknown op" ++ irFmtAux rest indent

/-- `ir.IrFmt`. -/
def irFmt (ir : List Instruction) : String :=
  irFmtAux ir 0

/-! ## Pipeline entry points (koi/interface.go and the `Tokenize`/`Parse`/
`GenerateIR` iteration) -/

/-- `koi.Tokenize`: on scanner errors it returns the *named* (zero) token
slice together with the joined error — note `return tokens, s.Error()`
returns the empty named result, not `toks`. -/
def koiTokenize (f : File) : List Token × Option (List Diag) :=
  let (toks, ss) := scanAll (newScanner f)
  if decide (0 < ss.numErrors) then ([], some ss.diags)
  else (toks, none)

/-- `koi.ParseFile` (interface.go): scanner errors short-circuit before the
parser, parser errors short-circuit before returning; the checker calls are
commented out in this entry point. -/
def koiParseFile (f : File) : Except (List Diag) Ast :=
  let (toks, ss) := scanAll (newScanner f)
  if decide (0 < ss.numErrors) then .error ss.diags
  else
    let (tree, ps) := parse (newParser f toks)
    if decide (0 < ps.numErrors) then .error ps.diags
    else .ok tree

/-- `koi.Parse`: note that the error returned by `Tokenize` is assigned to
`err` but never checked — the parser and checker run regardless (on the
empty token slice `Tokenize` returned).  The outer `Except String` carries
Go panics; the inner `Except (List Diag)` is the returned `error` value. -/
def koiParse (f : File) : Except String (Except (List Diag) (Ast × SemanticTable)) :=
  let (toks, _err) := koiTokenize f
  let (tree, ps) := parse (newParser f toks)
  if decide (0 < ps.numErrors) then .ok (.error ps.diags)
  else
    match check f tree with
    | .error m => .error m
    | .ok cs =>
      if cs.diags.isEmpty then .ok (.ok (tree, cs.table))
      else .ok (.error cs.diags)

/-- `koi.GenerateIR`. -/
def koiGenerateIR (f : File) :
    Except String (Except (List Diag) (List Instruction × SemanticTable)) :=
  match koiParse f with
  | .error m => .error m
  | .ok (.error ds) => .ok (.error ds)
  | .ok (.ok (tree, table)) =>
    match build tree table with
    | .error m => .error m
    | .ok out => .ok (.ok out)

/-! ## Observation helpers (the compositions the repo's own tests use) -/

def scanOf (src : String) : List Token × ScanState :=
  scanAll (newScanner (newFile src))

def parseOf (src : String) : Ast × PState :=
  let f := newFile src
  parse (newParser f (scanAll (newScanner f)).1)

def checkOf (src : String) : Except String CheckState :=
  let f := newFile src
  check f (parse (newParser f (scanAll (newScanner f)).1)).1

def astFuncNames (a : Ast) : List String :=
  a.map (fun f => f.name.lexeme)

def diagMsgs (ds : List Diag) : List String :=
  ds.map (fun d => d.msg)

def diagStartCols (ds : List Diag) : List Nat :=
  ds.map (fun d => d.colStart)

/-- The checker's diagnostic messages, `none` on a Go panic. -/
def checkDiagMsgsOf (src : String) : Option (List String) :=
  match checkOf src with
  | .ok cs => some (diagMsgs cs.diags)
  | .error _ => none

/-- The checker's error count, `none` on a Go panic. -/
def checkNumErrorsOf (src : String) : Option Nat :=
  match checkOf src with
  | .ok cs => some cs.numErrors
  | .error _ => none

/-- The pretty-printed IR of a full-pipeline compile. -/
def generateIRStringOf (src : String) : Except String (Except (List Diag) String) :=
  match koiGenerateIR (newFile src) with
  | .error m => .error m
  | .ok (.error ds) => .ok (.error ds)
  | .ok (.ok (ins, _)) => .ok (.ok (irFmt ins))

/-- The head opcode of a completed compile's instruction list (`some none`:
the compile completed but produced no instructions at all). -/
def irHeadOpOf (src : String) : Option (Option OpCode) :=
  match koiGenerateIR (newFile src) with
  | .ok (.ok (ins, _)) => some (ins.head?.map Instruction.op)
  | _ => none

/-- RefCounts of the global-scope symbols after an operation. -/
def globalRefCounts (t : SemanticTable) : List (String × Nat) :=
  match t.scopes.get? 0 with
  | some sc => sc.symbols.map (fun kv => (kv.1, kv.2.refCount))
  | none => []

/-- Global-scope RefCounts after a full front-end check. -/
def globalRefCountsOf (src : String) : Option (List (String × Nat)) :=
  match checkOf src with
  | .ok cs => some (globalRefCounts cs.table)
  | .error _ => none

/-! ## Specification-side predicates (used only in theorem statements) -/

/-- The single-point table update a successful lookup performs: replace the
`name` entry of scope `i` by `sym'`.  Everything else — every other scope,
every other symbol, `current`, `scopeMap` — is untouched. -/
def bumpAt (t : SemanticTable) (i : Nat) (name : String) (sym' : Symbol) : SemanticTable :=
  { t with scopes := updScope t.scopes i (fun sc0 => { sc0 with symbols := setSym sc0.symbols name sym' }) }

def isStoreOp : OpCode → Bool
  | .STORE_INT64 | .STORE_STR | .STORE_FLOAT64 | .STORE_BOOL => true
  | _ => false

/-- Every `RET` instruction's value id was previously assigned as the
destination of an earlier store instruction. -/
def RetsRef (l : List Instruction) : Prop :=
  ∀ (i : Nat) (instr : Instruction), l[i]? = some instr → instr.op = OpCode.RET →
    ∃ (j : Nat) (instr' : Instruction), j < i ∧ l[j]? = some instr'
      ∧ isStoreOp instr'.op = true ∧ instr'.dest.id = instr.value.id

/-- Statements whose return expressions are literals (or absent), the shape
a zero-diagnostic check of a parameterless program forces. -/
inductive RetLitStmt : Stmt → Prop where
  | retLit : ∀ tk tkl v, RetLitStmt (.ret tk (some (.lit tkl v)))
  | retNone : ∀ tk, RetLitStmt (.ret tk none)
  | block : ∀ bid e lb sts rb, (∀ st ∈ sts, RetLitStmt st) →
      RetLitStmt (.blockStmt (.blk bid e lb sts rb))

def AllRetLitC : CheckJob → Prop
  | .one st => RetLitStmt st
  | .blockJ (.blk _ _ _ sts _) => ∀ st ∈ sts, RetLitStmt st
  | .many l => ∀ st ∈ l, RetLitStmt st

def AllRetLitB : BuildJob → Prop
  | .one st => RetLitStmt st
  | .blockJ (.blk _ _ _ sts _) => ∀ st ∈ sts, RetLitStmt st
  | .many l => ∀ st ∈ l, RetLitStmt st

/-- No VAR/CONST symbol anywhere in the table (holds whenever no parameter
was ever declared — functions are the only other declarations and have
kind FUNC). -/
def NoVC (t : SemanticTable) : Prop :=
  ∀ i sc, t.scopes.get? i = some sc →
    ∀ name sym, sc.symbols.lookup name = some sym →
      sym.kind ≠ .VarSymbol ∧ sym.kind ≠ .ConstSymbol

/-- The parser's panic-mode bookkeeping invariant: outside panic mode no
error has been counted, and at most one error is ever counted.  It holds
initially and is preserved by every parser operation because `errFromTo`
is the only place `NumErrors` changes, it is suppressed in panic mode,
it enters panic mode when it fires, and no parser code path ever calls
`recover` to leave panic mode. -/
def ParserInv (s : PState) : Prop :=
  (s.panicMode = false → s.numErrors = 0) ∧ s.numErrors ≤ 1

/-! ## Concrete demonstration inputs for witnesses -/

/-- A fresh checker state. -/
def demoState : CheckState :=
  { file := newFile "", table := newSemanticTable }

/-- The literal AST of `func f() int { }`. -/
def demoFuncInt : Func :=
  { pub := false, name := { ttype := .IDENT, lexeme := "f" },
    params := some { empty := true },
    retType := some (.prim .INT { ttype := .INT, lexeme := "int" }),
    block := some (.blk 0 true {} [] {}) }

/-- The checker state right after `demoFuncInt`'s prologue (declare, push,
set return type): with an empty body it is also the state after the body
walk. -/
def demoPrologue : CheckState :=
  { demoState with table := (setReturnType
      (pushScope
        (tableDeclare newSemanticTable
          { name := demoFuncInt.name.lexeme, exported := demoFuncInt.pub, kind := .FuncSymbol,
            pos := funcPos demoFuncInt, typ := .prim .INT })
        (demoFuncInt.block.map Block.blkId))
      (.prim .INT)) }

/-- A checker state whose table already declares a function `g`. -/
def redeclState : CheckState :=
  { file := newFile "",
    table := tableDeclare newSemanticTable { name := "g", kind := .FuncSymbol, typ := voidType } }

/-- A second function declaration named `g` (empty params and body). -/
def redeclFunc : Func :=
  { pub := false, name := { ttype := .IDENT, lexeme := "g" },
    params := some { empty := true },
    retType := some (.prim .INT { ttype := .INT, lexeme := "int" }),
    block := some (.blk 0 true {} [] {}) }

/-- A token stream starting with a NEWLINE and then a RETURN keyword, used
to exercise `recover`'s seek loop. -/
def recoverDemo : PState :=
  { file := newFile "", toks := [{ ttype := .NEWLINE }, { ttype := .RETURN }] }

/-- Concrete pipeline artifacts of the `main` program, for instantiating
the IR-shape theorem: source, parse tree, checked state, built IR. -/
def c6Src : String := "pub func main() int { return 42 }"

def c6Tree : Ast := (parseOf c6Src).1

def c6Cs : CheckState :=
  (check (newFile c6Src) c6Tree).toOption.getD
    { file := newFile c6Src, table := newSemanticTable }

def c6Build : List Instruction × SemanticTable :=
  (build c6Tree c6Cs.table).toOption.getD ([], newSemanticTable)

/-! # Theorems -/

/-- C1: compiling `pub func main() int { return 42 }` through the full
pipeline (scan, parse, check, IR build) reports no diagnostics at any
stage, and the IR pretty-printer renders the instruction sequence exactly
as the three lines `PUB FUNC main -> int`, `  $0 i64 = 42`, `  RET $0`
(store and return indented two spaces under the FUNC line). -/
theorem c1_hello_main_pipeline :
    generateIRStringOf "pub func main() int { return 42 }"
      = .ok (.ok "PUB FUNC main -> int\n  $0 i64 = 42\n  RET $0\n")
    ∧ (scanOf "pub func main() int { return 42 }").2.numErrors = 0
    ∧ (parseOf "pub func main() int { return 42 }").2.numErrors = 0
    ∧ checkNumErrorsOf "pub func main() int { return 42 }" = some 0 :=
  ⟨rfl, rfl, rfl, rfl⟩

/-- C3: the claim says a stage with errors stops the pipeline and its
aggregated error is returned, and in particular that `Parse` never runs
the parser or checker on a source whose tokenization produced errors.  On
input `"?"` the scanner reports one error and `Tokenize` returns it, but
`Parse` drops that error: the parser and checker run (on the empty token
slice `Tokenize` returned alongside the error) and `Parse` — and hence
`GenerateIR` — complete with a `nil` error and an empty AST/IR instead of
returning the scanner's aggregated error. -/
theorem c3_parse_drops_scanner_error :
    (scanOf "?").2.numErrors = 1
    ∧ (koiTokenize (newFile "?")).2.isSome = true
    ∧ (koiTokenize (newFile "?")).1 = []
    ∧ koiParse (newFile "?") = .ok (.ok ([], newSemanticTable))
    ∧ koiGenerateIR (newFile "?") = .ok (.ok ([], newSemanticTable)) :=
  ⟨rfl, rfl, rfl, rfl, rfl⟩

/-- C4 counterexample: for `func a() int { ?^$ return 0 }` the entry point
`ParseFile` short-circuits on the scanner's three errors and returns no
AST at all, so the *returned* AST does not contain a declaration of
function `a` as the claim states. -/
theorem c4_counterexample_no_ast_returned :
    (koiParseFile (newFile "func a() int { ?^$ return 0 }")).isOk = false :=
  rfl

/-- C4 (amended): the input produces exactly three lexical diagnostics, one
for each of `?` (column 15), `^` (column 16) and `$` (column 17);
`ParseFile` then short-circuits and returns no AST; the parser itself, run
directly on the token stream, still recovers an AST containing a
declaration of function `a` (reporting one syntactic diagnostic). -/
theorem c4_three_illegal_diags_parser_keeps_func :
    (scanOf "func a() int { ?^$ return 0 }").2.numErrors = 3
    ∧ diagMsgs (scanOf "func a() int { ?^$ return 0 }").2.diags
        = ["illegal token", "illegal token", "illegal token"]
    ∧ diagStartCols (scanOf "func a() int { ?^$ return 0 }").2.diags = [15, 16, 17]
    ∧ astFuncNames (parseOf "func a() int { ?^$ return 0 }").1 = ["a"]
    ∧ (parseOf "func a() int { ?^$ return 0 }").2.numErrors = 1 :=
  ⟨rfl, rfl, rfl, rfl, rfl⟩

/-- C5 counterexample: `func a() 1 {}\nfunc b() 2 {}` contains two distinct
syntactic errors (invalid return type of `a`, and of `b`), yet the parser
reports exactly one diagnostic — the second error is suppressed because
panic mode is never left (`recover` is dead code).  Moreover `recover`
itself, run on a token stream beginning with a NEWLINE, does not stop at
the NEWLINE (position 0) but seeks on to the RETURN keyword (position 1),
contradicting the claimed NEWLINE synchronization point. -/
theorem c5_counterexample_second_error_suppressed :
    (parseOf "func a() 1 {}\nfunc b() 2 {}").2.numErrors = 1
    ∧ diagMsgs (parseOf "func a() 1 {}\nfunc b() 2 {}").2.diags = ["invalid type"]
    ∧ (pRecover { file := newFile "", toks := [{ ttype := .NEWLINE }, { ttype := .RETURN }] }).pos = 1 :=
  ⟨rfl, rfl, rfl⟩

/-- C6 counterexample: the empty source compiles through the whole pipeline
with no diagnostics, yet the produced instruction sequence is empty, so it
does not begin with a `FUNC` instruction (`some none`: the compile
completed and the head opcode of its instruction list does not exist). -/
theorem c6_counterexample_empty_compile :
    koiGenerateIR (newFile "") = .ok (.ok ([], newSemanticTable))
    ∧ irHeadOpOf "" = some none :=
  ⟨rfl, rfl⟩

/-- C8: `File.Line` drops the last character of every row: `findEndOfLine`
returns the *inclusive* index of a row's last character (as its own unit
test `TestFindEndOfLine` pins down: 10 and 25 for the two rows of
`"hello there\nmy name is bob"`), but `Line` uses that index as an
*exclusive* slice bound, so `Line(0)` of `"ab\n"` is `"a"` rather than the
full row substring `"ab"`, and both rows of the test string lose their
final character. -/
theorem c8_line_truncates_row :
    fileLine (newFile "ab\n") 0 = some "a"
    ∧ findEndOfLine "hello there\nmy name is bob".data 5 = 10
    ∧ findEndOfLine "hello there\nmy name is bob".data 14 = 25
    ∧ fileLine (newFile "hello there\nmy name is bob") 0 = some "hello ther"
    ∧ fileLine (newFile "hello there\nmy name is bob") 1 = some "my name is bo" :=
  ⟨rfl, rfl, rfl, rfl, rfl⟩

/-! ## Symbol lookup: the RefCount side effect (C9, C10) -/

/-- A successful `Scope.Symbol` walk found the name in some scope `i` of
the chain, returned it with RefCount+1, and the whole table mutation is the
single-point `bumpAt` update. -/
theorem scopeSymbolAux_found (fuel : Nat) (t : SemanticTable) (idx : Nat) (name : String)
    (sym : Symbol) (t' : SemanticTable)
    (h : scopeSymbolAux fuel t idx name = (some sym, t')) :
    ∃ i sc sym0, t.scopes.get? i = some sc ∧ sc.symbols.lookup name = some sym0
      ∧ sym = { sym0 with refCount := sym0.refCount + 1 } ∧ t' = bumpAt t i name sym := by
  induction fuel generalizing idx with
  | zero => simp [scopeSymbolAux] at h
  | succ fuel ih =>
    rw [scopeSymbolAux] at h
    cases hg : t.scopes.get? idx with
    | none => simp only [hg] at h; simp at h
    | some sc =>
      simp only [hg] at h
      cases hl : sc.symbols.lookup name with
      | some sym0 =>
        simp only [hl] at h
        injection h with h1 h2
        injection h1 with h1
        refine ⟨idx, sc, sym0, hg, hl, h1.symm, ?_⟩
        rw [← h2, h1]
        rfl
      | none =>
        simp only [hl] at h
        cases hp : sc.parent with
        | some p => simp only [hp] at h; exact ih p h
        | none => simp only [hp] at h; simp at h

/-- A failed `Scope.Symbol` walk mutates nothing. -/
theorem scopeSymbolAux_none (fuel : Nat) (t : SemanticTable) (idx : Nat) (name : String)
    (t' : SemanticTable)
    (h : scopeSymbolAux fuel t idx name = (none, t')) : t' = t := by
  induction fuel generalizing idx with
  | zero =>
    rw [scopeSymbolAux] at h
    injection h with h1 h2
    exact h2.symm
  | succ fuel ih =>
    rw [scopeSymbolAux] at h
    cases hg : t.scopes.get? idx with
    | none =>
      simp only [hg] at h
      injection h with h1 h2
      exact h2.symm
    | some sc =>
      simp only [hg] at h
      cases hl : sc.symbols.lookup name with
      | some sym0 => simp only [hl] at h; simp at h
      | none =>
        simp only [hl] at h
        cases hp : sc.parent with
        | some p => simp only [hp] at h; exact ih p h
        | none =>
          simp only [hp] at h
          injection h with h1 h2
          exact h2.symm

theorem bumpAt_current (t : SemanticTable) (i : Nat) (n : String) (sym : Symbol) :
    (bumpAt t i n sym).current = t.current := rfl

theorem bumpAt_scopeMap (t : SemanticTable) (i : Nat) (n : String) (sym : Symbol) :
    (bumpAt t i n sym).scopeMap = t.scopeMap := rfl

theorem updScope_size (scopes : Array ScopeR) (i : Nat) (f : ScopeR → ScopeR) :
    (updScope scopes i f).size = scopes.size := by
  unfold updScope
  split <;> simp

theorem bumpAt_size (t : SemanticTable) (i : Nat) (n : String) (sym : Symbol) :
    (bumpAt t i n sym).scopes.size = t.scopes.size := by
  simp [bumpAt, updScope_size]

/-- C9: every lookup through `Scope.Symbol` (hence `SemanticTable.Symbol`
and `TableReader.Get`) that finds the named symbol increments exactly that
symbol's RefCount by 1 and mutates nothing else in the table (the result
is the single-point `bumpAt` update of the scope where the name was
found); a failed lookup mutates nothing.  The concrete conjunct shows the
checker's redeclaration probe is counted: after checking two same-named
functions (the second never being a source-level *use* of `f`), the
surviving symbol's RefCount is already 1. -/
theorem c9_lookup_refcount_effect :
    (∀ t name sym t', tableSymbol t name = (some sym, t') →
      ∃ i sc sym0, t.scopes.get? i = some sc ∧ sc.symbols.lookup name = some sym0
        ∧ sym = { sym0 with refCount := sym0.refCount + 1 }
        ∧ t' = bumpAt t i name sym)
    ∧ (∀ t name t', tableSymbol t name = (none, t') → t' = t)
    ∧ globalRefCountsOf "func f() int { return 1 }\nfunc f() int { return 2 }" = some [("f", 1)] := by
  refine ⟨?_, ?_, rfl⟩
  · intro t name sym t' h
    exact scopeSymbolAux_found _ t _ name sym t' h
  · intro t name t' h
    exact scopeSymbolAux_none _ t _ name t' h

/-- C2: a return statement whose expression has a type (here: any literal
whose token kind maps to a type) type-checks — adds no diagnostic and no
error — if and only if the expression's canonical type name equals the
enclosing return type's canonical name under string equality
(`TypeEquals` compares `String()` values); on mismatch exactly one
diagnostic `expected return type X, got Y` is added.  In particular byte
and int have distinct canonical names with no implicit coercion: through
the full front end, `func f() int { return 'a' }` and
`func f() int { return 1.0 }` each produce exactly the one mismatch
diagnostic. -/
theorem c2_return_type_string_equality :
    (∀ (s : CheckState) (rtk tk : Token) (v : String) (k : TypeKind),
      tokenToTypeKind tk.ttype = some k →
      ∃ s', visitReturn s rtk (some (.lit tk v)) = .ok s'
        ∧ (s'.numErrors = s.numErrors ↔ typeKindToName k = tyString (tableReturnType s.table))
        ∧ (s'.diags = s.diags ↔ typeKindToName k = tyString (tableReturnType s.table))
        ∧ (typeKindToName k ≠ tyString (tableReturnType s.table) →
            s'.numErrors = s.numErrors + 1
            ∧ diagMsgs s'.diags = diagMsgs s.diags ++
                ["expected return type " ++ tyString (tableReturnType s.table) ++ ", got "
                  ++ typeKindToName k]))
    ∧ checkDiagMsgsOf "func f() int \x7b return 'a' \x7d" = some ["expected return type int, got byte"]
    ∧ checkNumErrorsOf "func f() int \x7b return 'a' \x7d" = some 1
    ∧ checkDiagMsgsOf "func f() int { return 1.0 }" = some ["expected return type int, got float"]
    ∧ checkNumErrorsOf "func f() int { return 1.0 }" = some 1
    ∧ typeKindToName .BYTE ≠ typeKindToName .INT := by
  refine ⟨?_, rfl, rfl, rfl, rfl, by decide⟩
  intro s rtk tk v k h
  have heq : visitReturn s rtk (some (.lit tk v))
      = (if !typeEquals (.prim k) (tableReturnType s.table) then
          .ok (cErr { s with table := markReturned s.table }
            (exprPos (.lit tk v)) (exprEnd (.lit tk v))
            ("expected return type " ++ tyString (tableReturnType s.table) ++ ", got "
              ++ tyString (.prim k)))
        else .ok { s with table := markReturned s.table }) := by
    simp only [visitReturn, evalExpr, evalLiteral, h]
  by_cases hc : typeKindToName k = tyString (tableReturnType s.table)
  · have hb : typeEquals (Ty.prim k) (tableReturnType s.table) = true := by
      simp [typeEquals, tyString, hc]
    refine ⟨{ s with table := markReturned s.table }, ?_, ?_, ?_, ?_⟩
    · rw [heq, hb]; simp
    · exact iff_of_true rfl hc
    · exact iff_of_true rfl hc
    · intro hne; exact absurd hc hne
  · have hb : typeEquals (Ty.prim k) (tableReturnType s.table) = false := by
      simp [typeEquals, tyString]
      exact hc
    refine ⟨cErr { s with table := markReturned s.table }
        (exprPos (.lit tk v)) (exprEnd (.lit tk v))
        ("expected return type " ++ tyString (tableReturnType s.table) ++ ", got "
          ++ tyString (.prim k)), ?_, ?_, ?_, ?_⟩
    · rw [heq, hb]; simp
    · refine iff_of_false ?_ hc
      simp [cErr]
    · refine iff_of_false ?_ hc
      simp only [cErr]
      intro habs
      have hlen := congrArg List.length habs
      simp at hlen
    · intro _
      constructor
      · rfl
      · simp only [cErr, diagMsgs, List.map_append]
        rfl

/-- C2 witness: the general clause applied to a byte literal returned from
a context whose expected return type is void (the fresh table's default):
the names differ, so exactly one mismatch diagnostic is added. -/
theorem c2_return_type_string_equality_witness :
    tokenToTypeKind TokenType.BYTE_LIT = some TypeKind.BYTE
    ∧ (∃ s', visitReturn { file := newFile "", table := newSemanticTable } {}
          (some (.lit { ttype := .BYTE_LIT, lexeme := "'a'" } "'a'")) = .ok s'
        ∧ (s'.numErrors = ({ file := newFile "", table := newSemanticTable } : CheckState).numErrors
            ↔ typeKindToName .BYTE
              = tyString (tableReturnType ({ file := newFile "", table := newSemanticTable } : CheckState).table))
        ∧ (s'.diags = ({ file := newFile "", table := newSemanticTable } : CheckState).diags
            ↔ typeKindToName .BYTE
              = tyString (tableReturnType ({ file := newFile "", table := newSemanticTable } : CheckState).table))
        ∧ (typeKindToName .BYTE
              ≠ tyString (tableReturnType ({ file := newFile "", table := newSemanticTable } : CheckState).table) →
            s'.numErrors = ({ file := newFile "", table := newSemanticTable } : CheckState).numErrors + 1
            ∧ diagMsgs s'.diags
              = diagMsgs ({ file := newFile "", table := newSemanticTable } : CheckState).diags ++
                ["expected return type "
                  ++ tyString (tableReturnType ({ file := newFile "", table := newSemanticTable } : CheckState).table)
                  ++ ", got " ++ typeKindToName .BYTE])) :=
  ⟨rfl, c2_return_type_string_equality.1 { file := newFile "", table := newSemanticTable } {}
    { ttype := .BYTE_LIT, lexeme := "'a'" } "'a'" .BYTE rfl⟩

theorem typeKindToName_eq_void_iff (k : TypeKind) : (typeKindToName k = "void") ↔ k = .VOID := by
  cases k <;> decide

/-- C7: for every function whose walk reaches the end of the body with the
function scope's has-returned flag still false (the hypotheses fix the
prologue: not `main`, not redeclared, primitive return type, the parameter
declarations and body walk both complete), the checker appends exactly one
"function never returns" diagnostic when the declared return type is not
VOID, and none when it is VOID.  Concretely, `func f() int { }` yields
exactly that one diagnostic and `func f() void { }` yields none. -/
theorem c7_function_never_returns :
    (∀ (s : CheckState) (f : Func) (t' : SemanticTable) (k : TypeKind) (rtk : Token)
        (nt : NamedTuple) (b : Block) (s6 s7 : CheckState),
      f.name.lexeme ≠ "main" →
      tableSymbol s.table f.name.lexeme = (none, t') →
      f.retType = some (.prim k rtk) →
      f.params = some nt →
      f.block = some b →
      declareParams
        { s with table := (setReturnType
            (pushScope
              (tableDeclare t'
                { name := f.name.lexeme, exported := f.pub, kind := .FuncSymbol,
                  pos := funcPos f, typ := .prim k })
              (f.block.map Block.blkId))
            (.prim k)) } nt.fields = .ok s6 →
      visitBlockWithoutScope s6 b = .ok s7 →
      tableHasReturned s7.table = false →
      ∃ s8, visitFunc s f = .ok s8
        ∧ s8.numErrors = s7.numErrors + (if k = .VOID then 0 else 1)
        ∧ diagMsgs s8.diags = diagMsgs s7.diags
            ++ (if k = .VOID then [] else ["function never returns"]))
    ∧ checkDiagMsgsOf "func f() int { }" = some ["function never returns"]
    ∧ checkNumErrorsOf "func f() int { }" = some 1
    ∧ checkNumErrorsOf "func f() void { }" = some 0 := by
  refine ⟨?_, rfl, rfl, rfl⟩
  intro s f t' k rtk nt b s6 s7 hmain hsym hret hparams hblock hdecl hbody hnr
  have hval : typeEquals (Ty.prim k) voidType = (decide (k = TypeKind.VOID)) := by
    by_cases hk : k = TypeKind.VOID
    · subst hk; decide
    · have h1 : typeKindToName k ≠ "void" :=
        fun hcontra => hk ((typeKindToName_eq_void_iff k).mp hcontra)
      have h2 : (typeKindToName k == "void") = false := beq_eq_false_iff_ne.mpr h1
      show (typeKindToName k == "void") = decide (k = TypeKind.VOID)
      rw [h2, decide_eq_false hk]
  by_cases hk : k = TypeKind.VOID
  · refine ⟨{ s7 with table := popScope s7.table }, ?_, ?_, ?_⟩
    · simp only [visitFunc, if_neg hmain, hsym, hret, visitType, hparams]
      simp only [hdecl]
      simp only [hblock]
      simp only [hbody]
      simp only [hnr, hval]
      simp [hk]
    · simp [hk]
    · simp [hk]
  · refine ⟨{ (cErr s7 (funcPos f) (funcEnd f) "function never returns") with
        table := popScope (cErr s7 (funcPos f) (funcEnd f) "function never returns").table }, ?_, ?_, ?_⟩
    · simp only [visitFunc, if_neg hmain, hsym, hret, visitType, hparams]
      simp only [hdecl]
      simp only [hblock]
      simp only [hbody]
      simp only [hnr, hval]
      simp [hk, cErr]
    · simp [hk, cErr]
    · simp [hk, cErr, diagMsgs]

/-- C7 witness: the general clause applied to the literal AST of
`func f() int { }` (one function, no params, empty body) starting from a
fresh checker state. -/
theorem c7_function_never_returns_witness :
    demoFuncInt.name.lexeme ≠ "main"
    ∧ tableHasReturned demoPrologue.table = false
    ∧ (∃ s8, visitFunc demoState demoFuncInt = .ok s8
        ∧ s8.numErrors = demoPrologue.numErrors + (if TypeKind.INT = TypeKind.VOID then 0 else 1)
        ∧ diagMsgs s8.diags = diagMsgs demoPrologue.diags
            ++ (if TypeKind.INT = TypeKind.VOID then [] else ["function never returns"])) := by
  refine ⟨by decide, by decide, ?_⟩
  exact c7_function_never_returns.1 demoState demoFuncInt newSemanticTable .INT
    { ttype := .INT, lexeme := "int" } { empty := true } (.blk 0 true {} [] {})
    demoPrologue demoPrologue (by decide) rfl rfl rfl rfl rfl rfl rfl

/-- C10: if a function's name is already declared in the current scope, the
checker emits the redeclaration diagnostic (citing the prior declaration's
row) and returns immediately: the final state is exactly the input state
with the probe's RefCount bump (`t'`), one more error, and that single
diagnostic appended — so no new symbol is installed, no scope is created,
pushed or recorded in the block-to-scope map (`t'` keeps the scope map,
current scope and scope count of the original table), and the body is
never walked (no diagnostics from it). -/
theorem c10_redeclared_func_short_circuits :
    ∀ (s : CheckState) (f : Func) (sym : Symbol) (t' : SemanticTable),
      f.name.lexeme ≠ "main" →
      tableSymbol s.table f.name.lexeme = (some sym, t') →
      visitFunc s f = .ok
        { s with
          table := t'
          numErrors := s.numErrors + 1
          diags := s.diags ++
            [{ line := (funcPos f).row + 1, lineStr := fileLine s.file (funcPos f).row,
               msg := "function " ++ f.name.lexeme ++ " already declared on line "
                 ++ toString (sym.pos.row + 1),
               colStart := (funcPos f).col, colEnd := (funcEnd f).col }] }
      ∧ t'.scopeMap = s.table.scopeMap
      ∧ t'.current = s.table.current
      ∧ t'.scopes.size = s.table.scopes.size := by
  intro s f sym t' hmain hsym
  obtain ⟨i, sc, sym0, _, _, _, ht'⟩ :=
    scopeSymbolAux_found _ s.table _ f.name.lexeme sym t' hsym
  refine ⟨?_, ?_, ?_, ?_⟩
  · simp only [visitFunc, if_neg hmain, hsym, cErr]
  · rw [ht']; exact bumpAt_scopeMap ..
  · rw [ht']; exact bumpAt_current ..
  · rw [ht']; exact bumpAt_size ..

/-- C10 witness: the theorem applied to a concrete state whose table
already declares `g` and a second declaration of `g`. -/
theorem c10_redeclared_func_short_circuits_witness :
    redeclFunc.name.lexeme ≠ "main"
    ∧ tableSymbol redeclState.table redeclFunc.name.lexeme
        = (some { kind := .FuncSymbol, name := "g", refCount := 1, typ := voidType },
           (tableSymbol redeclState.table "g").2)
    ∧ (visitFunc redeclState redeclFunc = .ok
        { redeclState with
          table := (tableSymbol redeclState.table "g").2
          numErrors := redeclState.numErrors + 1
          diags := redeclState.diags ++
            [{ line := (funcPos redeclFunc).row + 1,
               lineStr := fileLine redeclState.file (funcPos redeclFunc).row,
               msg := "function " ++ redeclFunc.name.lexeme ++ " already declared on line "
                 ++ toString (((0 : Nat) + 1 : Nat)),
               colStart := (funcPos redeclFunc).col, colEnd := (funcEnd redeclFunc).col }] }
        ∧ ((tableSymbol redeclState.table "g").2).scopeMap = redeclState.table.scopeMap
        ∧ ((tableSymbol redeclState.table "g").2).current = redeclState.table.current
        ∧ ((tableSymbol redeclState.table "g").2).scopes.size = redeclState.table.scopes.size) := by
  refine ⟨by decide, rfl, ?_⟩
  exact c10_redeclared_func_short_circuits redeclState redeclFunc
    { kind := .FuncSymbol, name := "g", refCount := 1, typ := voidType }
    (tableSymbol redeclState.table "g").2 (by decide) rfl

/-- C9 witness: the general clauses applied at a concrete table containing
one function symbol `x`: the lookup finds it, returns it with RefCount 1
and performs exactly the `bumpAt` update, while a lookup of an absent name
leaves the table untouched. -/
theorem c9_lookup_refcount_effect_witness :
    (∃ i sc sym0,
        (tableDeclare newSemanticTable { name := "x", kind := .FuncSymbol, typ := voidType }).scopes.get? i = some sc
        ∧ sc.symbols.lookup "x" = some sym0
        ∧ ({ kind := .FuncSymbol, name := "x", refCount := 1, typ := voidType } : Symbol)
            = { sym0 with refCount := sym0.refCount + 1 }
        ∧ (tableSymbol (tableDeclare newSemanticTable { name := "x", kind := .FuncSymbol, typ := voidType }) "x").2
            = bumpAt (tableDeclare newSemanticTable { name := "x", kind := .FuncSymbol, typ := voidType }) i "x"
                { kind := .FuncSymbol, name := "x", refCount := 1, typ := voidType })
    ∧ (tableSymbol newSemanticTable "y").2 = newSemanticTable := by
  constructor
  · exact c9_lookup_refcount_effect.1
      (tableDeclare newSemanticTable { name := "x", kind := .FuncSymbol, typ := voidType }) "x"
      { kind := .FuncSymbol, name := "x", refCount := 1, typ := voidType } _ rfl
  · exact c9_lookup_refcount_effect.2.1 newSemanticTable "y" _ rfl

/-! ## C5: the panic-mode invariant

`errFromTo` is the only parser operation that touches `NumErrors`; it is
suppressed while in panic mode, enters panic mode when it fires, and no
code path ever resets `PanicMode` (`recover` is never called).  Hence the
whole parse reports at most one diagnostic.  The lemmas below establish
`ParserInv` preservation for every parser operation. -/

theorem inv_ite (c : Prop) [Decidable c] (a b : PState)
    (ha : ParserInv a) (hb : ParserInv b) : ParserInv (if c then a else b) := by
  split
  · exact ha
  · exact hb

theorem inv_pErrFromTo (s : PState) (frm tto : Token) (msg : String)
    (h : ParserInv s) : ParserInv (pErrFromTo s frm tto msg) := by
  unfold pErrFromTo
  split
  · exact h
  · next hp =>
    simp only [Bool.not_eq_true] at hp
    have h0 : s.numErrors = 0 := h.1 hp
    constructor
    · intro hcontra
      exact Bool.noConfusion hcontra
    · show s.numErrors + 1 ≤ 1
      omega

theorem inv_pErr (s : PState) (msg : String) (h : ParserInv s) :
    ParserInv (pErr s msg) :=
  inv_pErrFromTo s (pCur s) (pCur s) msg h

theorem inv_pExpect (s : PState) (typ : TokenType) (h : ParserInv s) :
    ParserInv (pExpect s typ).2 := by
  unfold pExpect
  split
  · exact inv_pErr s ("expected " ++ tokenTypeString typ) h
  · exact h

theorem inv_pGotoNewlineAux (fuel : Nat) : ∀ (s : PState), ParserInv s →
    ParserInv (pGotoNewlineAux fuel s) := by
  induction fuel with
  | zero => intro s h; exact h
  | succ fuel ih =>
    intro s h
    unfold pGotoNewlineAux
    split
    · exact ih (pNext s) h
    · exact h

theorem inv_parseType (s : PState) (h : ParserInv s) : ParserInv (parseType s).2 := by
  unfold parseType
  split
  · exact h
  · split
    · exact inv_pErr s "expected type" h
    · split
      · exact h
      · exact inv_pErrFromTo s _ _ "invalid type" h

theorem inv_parseLiteral (s : PState) (h : ParserInv s) :
    ParserInv (parseLiteral s).2 := by
  unfold parseLiteral
  split
  · exact h
  · split
    · exact inv_pErrFromTo _ _ _ "invalid expression"
        (inv_pGotoNewlineAux (s.toks.length + 1) s h)
    · exact h

theorem inv_tupleLoop (fuel : Nat) : ∀ (s : PState) (fields : List Field),
    ParserInv s → ParserInv (tupleLoop fuel s fields).2 := by
  induction fuel with
  | zero => intro s fields h; exact h
  | succ fuel ih =>
    intro s fields h
    rcases hx1 : pExpect s .IDENT with ⟨name, s1⟩
    have h1 : ParserInv s1 := by
      have hv := inv_pExpect s .IDENT h
      rwa [hx1] at hv
    rcases hx2 : parseType s1 with ⟨typ, s2⟩
    have h2 : ParserInv s2 := by
      have hv := inv_parseType s1 h1
      rwa [hx2] at hv
    unfold tupleLoop
    split
    · simp only [hx1, hx2]
      split
      · exact h2
      · rcases hx3 : pExpect s2 .COMMA with ⟨c, s3⟩
        have h3 : ParserInv s3 := by
          have hv := inv_pExpect s2 .COMMA h2
          rwa [hx3] at hv
        simp only [hx3]
        exact ih s3 _ h3
    · exact h

theorem inv_parseNamedTuple (s : PState) (h : ParserInv s) :
    ParserInv (parseNamedTuple s).2 := by
  unfold parseNamedTuple
  split
  · exact h
  · rcases hx1 : pExpect s .LPAREN with ⟨lparen, s1⟩
    have h1 : ParserInv s1 := by
      have hv := inv_pExpect s .LPAREN h
      rwa [hx1] at hv
    simp only [hx1]
    split
    · exact h1
    · rcases hx2 : tupleLoop (s1.toks.length + 2) s1 [] with ⟨fields, s2⟩
      have h2 : ParserInv s2 := by
        have hv := inv_tupleLoop (s1.toks.length + 2) s1 [] h1
        rwa [hx2] at hv
      simp only [hx2]
      exact h2

theorem inv_exprEngine (fuel : Nat) : ∀ (job : ExprJob) (s : PState),
    ParserInv s → ParserInv (exprEngine fuel job s).2 := by
  induction fuel with
  | zero => intro job s h; exact h
  | succ fuel ih =>
    intro job s h
    cases job with
    | exprJ =>
      simp only [exprEngine]
      split
      · exact h
      · exact h
      · exact ih .equalityJ s h
    | equalityJ => exact ih .comparisonJ s h
    | comparisonJ => exact ih .termJ s h
    | termJ => exact ih .factorJ s h
    | factorJ => exact ih .unaryJ s h
    | unaryJ => exact ih .callJ s h
    | callJ =>
      simp only [exprEngine]
      rcases hx : exprEngine fuel .groupJ s with ⟨out, s1⟩
      have h1 : ParserInv s1 := by
        have hv := ih .groupJ s h
        rwa [hx] at hv
      try simp only [hx]
      cases out with
      | exprO callee => exact ih (.callLoopJ callee) s1 h1
      | argsO l => exact h1
    | groupJ =>
      simp only [exprEngine]
      rcases hx : parseLiteral s with ⟨e, s1⟩
      have h1 : ParserInv s1 := by
        have hv := inv_parseLiteral s h
        rwa [hx] at hv
      simp only [hx]
      exact h1
    | callLoopJ callee =>
      simp only [exprEngine, pConsume]
      split
      · split
        · exact h
        · rcases hx : exprEngine fuel (.argsLoopJ []) (pNext s) with ⟨out, s2⟩
          have h2 : ParserInv s2 := by
            have hv := ih (.argsLoopJ []) (pNext s) h
            rwa [hx] at hv
          try simp only [hx]
          cases out with
          | argsO args =>
            exact ih (.callLoopJ _) _
              (inv_ite _ _ s2 (inv_pErr s2 "expected ) after argument list" h2) h2)
          | exprO e => exact h2
      · exact h
    | argsLoopJ args =>
      simp only [exprEngine]
      rcases hx : exprEngine fuel .exprJ s with ⟨out, s1⟩
      have h1 : ParserInv s1 := by
        have hv := ih .exprJ s h
        rwa [hx] at hv
      try simp only [hx]
      cases out with
      | exprO e =>
        try dsimp only
        split
        · exact h1
        · exact ih (.argsLoopJ (args ++ [e])) (pNext s1) h1
      | argsO l => exact h1

theorem inv_parseExpr (fuel : Nat) (s : PState) (h : ParserInv s) :
    ParserInv (parseExpr fuel s).2 := by
  unfold parseExpr
  rcases hx : exprEngine fuel .exprJ s with ⟨out, s1⟩
  have h1 : ParserInv s1 := by
    have hv := inv_exprEngine fuel .exprJ s h
    rwa [hx] at hv
  try simp only [hx]
  cases out with
  | exprO e => exact h1
  | argsO l => exact h1

theorem inv_parseReturn (fuel : Nat) (s : PState) (h : ParserInv s) :
    ParserInv (parseReturn fuel s).2 := by
  simp only [parseReturn, pConsume]
  split
  · exact h
  · rcases hx : parseExpr fuel (pNext s) with ⟨e, s2⟩
    have h2 : ParserInv s2 := by
      have hv := inv_parseExpr fuel (pNext s) h
      rwa [hx] at hv
    simp only [hx]
    exact h2

theorem inv_stmtEngine (fuel : Nat) : ∀ (job : StmtJob) (s : PState),
    ParserInv s → ParserInv (stmtEngine fuel job s).2 := by
  induction fuel with
  | zero => intro job s h; exact h
  | succ fuel ih =>
    intro job s h
    cases job with
    | stmtJ =>
      simp only [stmtEngine]
      split
      · exact h
      · split
        · rcases hx : parseReturn fuel s with ⟨r, s1⟩
          have h1 : ParserInv s1 := by
            have hv := inv_parseReturn fuel s h
            rwa [hx] at hv
          simp only [hx]
          exact h1
        · rcases hx : stmtEngine fuel .blockJ s with ⟨out, s1⟩
          have h1 : ParserInv s1 := by
            have hv := ih .blockJ s h
            rwa [hx] at hv
          try simp only [hx]
          cases out <;> exact h1
        · rcases hx : parseExpr fuel s with ⟨e, s1⟩
          have h1 : ParserInv s1 := by
            have hv := inv_parseExpr fuel s h
            rwa [hx] at hv
          simp only [hx]
          exact h1
    | blockJ =>
      simp only [stmtEngine]
      split
      · exact h
      · rcases hx1 : pExpect s .LBRACE with ⟨lbrace, s1⟩
        have h1 : ParserInv s1 := by
          have hv := inv_pExpect s .LBRACE h
          rwa [hx1] at hv
        rcases hx2 : stmtEngine fuel (.blockLoopJ []) s1 with ⟨out, s2⟩
        have h2 : ParserInv s2 := by
          have hv := ih (.blockLoopJ []) s1 h1
          rwa [hx2] at hv
        simp only [hx1, hx2]
        cases out with
        | stmtsO stmts =>
          rcases hx3 : pExpect s2 .RBRACE with ⟨rbrace, s3⟩
          have h3 : ParserInv s3 := by
            have hv := inv_pExpect s2 .RBRACE h2
            rwa [hx3] at hv
          simp only [hx3]
          exact h3
        | stmtO st => exact h2
        | blockO b => exact h2
    | blockLoopJ stmts =>
      simp only [stmtEngine, pGotoNewline]
      split
      · split
        · exact ih (.blockLoopJ stmts) (pNext s) h
        · rcases hx : stmtEngine fuel .stmtJ s with ⟨out, s1⟩
          have h1 : ParserInv s1 := by
            have hv := ih .stmtJ s h
            rwa [hx] at hv
          try simp only [hx]
          cases out with
          | stmtO st =>
            try dsimp only
            split
            · exact ih (.blockLoopJ stmts) _
                (inv_pErrFromTo _ _ _ "expected end of statement"
                  (inv_pGotoNewlineAux (s1.toks.length + 1) s1 h1))
            · exact ih (.blockLoopJ (stmts ++ st.toList)) s1 h1
          | blockO b => exact h1
          | stmtsO l => exact h1
      · exact h

theorem inv_parseBlock (fuel : Nat) (s : PState) (h : ParserInv s) :
    ParserInv (parseBlock fuel s).2 := by
  unfold parseBlock
  rcases hx : stmtEngine fuel .blockJ s with ⟨out, s1⟩
  have h1 : ParserInv s1 := by
    have hv := inv_stmtEngine fuel .blockJ s h
    rwa [hx] at hv
  try simp only [hx]
  cases out <;> exact h1

theorem inv_parseFunc (fuel : Nat) (s : PState) (h : ParserInv s) :
    ParserInv (parseFunc fuel s).2 := by
  simp only [parseFunc]
  rcases hx0 : (if pMatch s .PUB then (true, pNext s) else (false, s)) with ⟨isPub, s1⟩
  have h1 : ParserInv s1 := by
    have hv : ParserInv (if pMatch s .PUB then (true, pNext s) else (false, s)).2 := by
      split
      · exact h
      · exact h
    rwa [hx0] at hv
  simp only [hx0]
  rcases hx1 : pExpect (pNext s1) .IDENT with ⟨name, s3⟩
  have h3 : ParserInv s3 := by
    have hv := inv_pExpect (pNext s1) .IDENT h1
    rwa [hx1] at hv
  simp only [hx1]
  rcases hx2 : parseNamedTuple s3 with ⟨params, s4⟩
  have h4 : ParserInv s4 := by
    have hv := inv_parseNamedTuple s3 h3
    rwa [hx2] at hv
  simp only [hx2]
  rcases hx3 : parseType (if pMatch s4 .LBRACE then pErr s4 "expected return type" else s4)
    with ⟨typ, s6⟩
  have h6 : ParserInv s6 := by
    have h5 : ParserInv (if pMatch s4 .LBRACE then pErr s4 "expected return type" else s4) :=
      inv_ite _ _ s4 (inv_pErr s4 "expected return type" h4) h4
    have hv := inv_parseType _ h5
    rwa [hx3] at hv
  simp only [hx3]
  rcases hx4 : parseBlock fuel s6 with ⟨block, s7⟩
  have h7 : ParserInv s7 := by
    have hv := inv_parseBlock fuel s6 h6
    rwa [hx4] at hv
  simp only [hx4]
  exact h7

theorem inv_parseLoop (fuel : Nat) : ∀ (s : PState) (nodes : List Func),
    ParserInv s → ParserInv (parseLoop fuel s nodes).2 := by
  induction fuel with
  | zero => intro s nodes h; exact h
  | succ fuel ih =>
    intro s nodes h
    unfold parseLoop
    split
    · exact h
    · split
      · exact h
      · split
        · exact ih (pNext s) nodes h
        · split
          · rcases hx : parseFunc (4 * s.toks.length + 16) s with ⟨n, s1⟩
            have h1 : ParserInv s1 := by
              have hv := inv_parseFunc (4 * s.toks.length + 16) s h
              rwa [hx] at hv
            try simp only [hx]
            exact ih s1 (nodes ++ [n]) h1
          · exact inv_pErr s "unknown top level statement" h

/-- The seek loop of `recover` stops only on the four statement keywords:
if it halts before the end of the stream, the current token is IF, FUNC,
FOR or RETURN (in particular never NEWLINE). -/
theorem pRecoverAux_stops (fuel : Nat) : ∀ (s : PState),
    s.toks.length - s.pos < fuel →
    pEof (pRecoverAux fuel s) = false →
    ((pCur (pRecoverAux fuel s)).ttype = .IF ∨ (pCur (pRecoverAux fuel s)).ttype = .FUNC
      ∨ (pCur (pRecoverAux fuel s)).ttype = .FOR
      ∨ (pCur (pRecoverAux fuel s)).ttype = .RETURN) := by
  induction fuel with
  | zero => intro s hlt; exact (Nat.not_lt_zero _ hlt).elim
  | succ fuel ih =>
    intro s hlt hne
    unfold pRecoverAux at hne ⊢
    by_cases he : pEof s = true
    · simp [he] at hne
    · have he' : pEof s = false := by
        revert he
        cases pEof s <;> simp
      simp only [he', Bool.false_eq_true, if_false] at hne ⊢
      unfold pEof at he'
      have hp := of_decide_eq_false he'
      have hlt' : (pNext s).toks.length - (pNext s).pos < fuel := by
        show s.toks.length - (s.pos + 1) < fuel
        omega
      cases hcase : (pCur s).ttype <;>
        simp only [hcase] at hne ⊢ <;>
        first
          | simp
          | exact ih (pNext s) hlt' hne

theorem pRecover_stops (s : PState) (hne : pEof (pRecover s) = false) :
    (pCur (pRecover s)).ttype = .IF ∨ (pCur (pRecover s)).ttype = .FUNC
      ∨ (pCur (pRecover s)).ttype = .FOR ∨ (pCur (pRecover s)).ttype = .RETURN := by
  unfold pRecover at hne ⊢
  exact pRecoverAux_stops (s.toks.length + 1) _
    (by show s.toks.length - s.base < s.toks.length + 1; omega) hne

/-- C5 (amended): the claimed recovery never happens — once the parser
enters panic mode it stays there, so an entire parse reports at most one
diagnostic (later errors are suppressed rather than separately reported).
The `recover` routine itself (dead code) synchronizes only on the
statement keywords `if`/`func`/`for`/`return`, never on NEWLINE: whenever
its seek loop halts before the end of the stream, the current token is one
of those four keywords. -/
theorem c5_panic_mode_never_exits :
    (∀ (f : File) (toks : List Token), (parse (newParser f toks)).2.numErrors ≤ 1)
    ∧ (∀ s : PState, pEof (pRecover s) = false →
        (pCur (pRecover s)).ttype = .IF ∨ (pCur (pRecover s)).ttype = .FUNC
          ∨ (pCur (pRecover s)).ttype = .FOR ∨ (pCur (pRecover s)).ttype = .RETURN) := by
  constructor
  · intro f toks
    have h0 : ParserInv (newParser f toks) := ⟨fun _ => rfl, by show (0:Nat) ≤ 1; omega⟩
    unfold parse
    split
    · exact h0.2
    · exact (inv_parseLoop ((newParser f toks).toks.length + 2) (newParser f toks) [] h0).2
  · intro s hne
    exact pRecover_stops s hne

/-- C5 witness: the amended clauses applied at concrete inputs: `recover`
run on the stream `[NEWLINE, RETURN]` halts mid-stream on the RETURN
keyword (skipping the NEWLINE), and a parse of the empty token stream
reports at most one error. -/
theorem c5_panic_mode_never_exits_witness :
    pEof (pRecover recoverDemo) = false
    ∧ ((pCur (pRecover recoverDemo)).ttype = .IF ∨ (pCur (pRecover recoverDemo)).ttype = .FUNC
        ∨ (pCur (pRecover recoverDemo)).ttype = .FOR
        ∨ (pCur (pRecover recoverDemo)).ttype = .RETURN)
    ∧ (parse (newParser (newFile "") [])).2.numErrors ≤ 1 :=
  ⟨by decide, c5_panic_mode_never_exits.2 recoverDemo (by decide),
    c5_panic_mode_never_exits.1 (newFile "") []⟩

/-! ## C6: table plumbing lemmas

The checker invariant behind the amended C6 is `NoVC`: a table that was
never fed a parameter declaration holds only function symbols, so no
identifier can ever be *used* without a diagnostic.  These lemmas track
`NoVC` through every table operation the checker performs. -/

theorem updScope_get?_cases (scopes : Array ScopeR) (i : Nat) (g : ScopeR → ScopeR)
    (j : Nat) (sc : ScopeR) (h : (updScope scopes i g).get? j = some sc) :
    ∃ sc0, scopes.get? j = some sc0 ∧ (sc = g sc0 ∨ sc = sc0) := by
  unfold updScope at h
  split at h
  · next hi =>
    rw [Array.get?_eq_getElem?] at h
    by_cases hj : j = i
    · subst hj
      rw [Array.get?_set_eq] at h
      refine ⟨scopes.get ⟨j, hi⟩, ?_, .inl ?_⟩
      · rw [Array.get?_eq_getElem?]
        exact Array.getElem?_lt scopes hi
      · injection h with h
        exact h.symm
    · rw [Array.get?_set_ne scopes ⟨i, hi⟩ _ (fun he => hj he.symm)] at h
      refine ⟨sc, ?_, .inr rfl⟩
      rw [Array.get?_eq_getElem?]
      exact h
  · exact ⟨sc, h, .inr rfl⟩

theorem lookup_setSym (l : List (String × Symbol)) (n : String) (sym : Symbol) (m : String) :
    (setSym l n sym).lookup m = if m = n then some sym else l.lookup m := by
  induction l with
  | nil =>
    by_cases hm : m = n
    · subst hm
      simp only [setSym, List.lookup, if_pos rfl]
      rw [beq_self_eq_true]
      simp
    · simp only [setSym, List.lookup, if_neg hm]
      rw [beq_eq_false_iff_ne.mpr hm]
  | cons kv rest ih =>
    rcases kv with ⟨k, v⟩
    simp only [setSym]
    split
    · next hk =>
      subst hk
      by_cases hm : m = k
      · subst hm
        simp only [List.lookup, if_pos rfl]
        rw [beq_self_eq_true]
        simp
      · simp only [List.lookup, if_neg hm]
        rw [beq_eq_false_iff_ne.mpr hm]
    · next hk =>
      by_cases hm : m = k
      · subst hm
        simp only [List.lookup, if_neg (fun he => hk he)]
        rw [beq_self_eq_true]
      · by_cases hmn : m = n
        · simp only [List.lookup, if_pos hmn]
          rw [beq_eq_false_iff_ne.mpr hm, ih, if_pos hmn]
        · simp only [List.lookup, if_neg hmn]
          rw [beq_eq_false_iff_ne.mpr hm, ih, if_neg hmn]

theorem NoVC_updScope (t : SemanticTable) (i : Nat) (g : ScopeR → ScopeR)
    (hg : ∀ sc, (g sc).symbols = sc.symbols) (h : NoVC t)
    (t' : SemanticTable) (ht' : t'.scopes = updScope t.scopes i g) : NoVC t' := by
  intro j sc hsc name sym hlk
  rw [ht'] at hsc
  rcases updScope_get?_cases t.scopes i g j sc hsc with ⟨sc0, hsc0, hc | hc⟩
  · subst hc
    rw [hg sc0] at hlk
    exact h j sc0 hsc0 name sym hlk
  · subst hc
    exact h j _ hsc0 name sym hlk

theorem NoVC_markReturned (t : SemanticTable) (h : NoVC t) : NoVC (markReturned t) :=
  NoVC_updScope t t.current (fun sc => { sc with hasReturned := true }) (fun _ => rfl) h
    (markReturned t) rfl

theorem NoVC_setReturnType (t : SemanticTable) (ty : Ty) (h : NoVC t) :
    NoVC (setReturnType t ty) :=
  NoVC_updScope t t.current (fun sc => { sc with ret := ty }) (fun _ => rfl) h
    (setReturnType t ty) rfl

theorem NoVC_popScope (t : SemanticTable) (h : NoVC t) : NoVC (popScope t) := by
  unfold popScope
  split
  · exact h
  · exact h

theorem NoVC_tableDeclare (t : SemanticTable) (sym : Symbol)
    (hk : sym.kind ≠ .VarSymbol ∧ sym.kind ≠ .ConstSymbol) (h : NoVC t) :
    NoVC (tableDeclare t sym) := by
  intro j sc hsc name sym2 hlk
  rcases updScope_get?_cases t.scopes t.current _ j sc hsc with ⟨sc0, hsc0, hc | hc⟩
  · subst hc
    rw [lookup_setSym] at hlk
    split at hlk
    · injection hlk with he
      subst he
      exact hk
    · exact h j sc0 hsc0 name sym2 hlk
  · subst hc
    exact h j _ hsc0 name sym2 hlk

theorem NoVC_pushScope (t : SemanticTable) (bk : Option Nat) (h : NoVC t) :
    NoVC (pushScope t bk) := by
  intro j sc hsc name sym hlk
  unfold pushScope at hsc
  rw [Array.get?_eq_getElem?] at hsc
  by_cases hj : j < (updScope t.scopes t.current
      (fun sc => { sc with children := sc.children ++ [t.scopes.size] })).size
  · rw [Array.getElem?_push_lt _ _ _ hj] at hsc
    injection hsc with hsc
    have h2 : (updScope t.scopes t.current
        (fun sc => { sc with children := sc.children ++ [t.scopes.size] })).get? j = some sc := by
      rw [Array.get?_eq_getElem?, Array.getElem?_lt _ hj]
      rw [hsc]
    rcases updScope_get?_cases t.scopes t.current _ j sc h2 with ⟨sc0, hsc0, hc | hc⟩
    · subst hc
      exact h j sc0 hsc0 name sym hlk
    · subst hc
      exact h j _ hsc0 name sym hlk
  · by_cases hj2 : j = (updScope t.scopes t.current
        (fun sc => { sc with children := sc.children ++ [t.scopes.size] })).size
    · subst hj2
      rw [Array.getElem?_push_eq] at hsc
      injection hsc with hsc
      rw [← hsc] at hlk
      cases hlk
    · rw [show ((updScope t.scopes t.current
          (fun sc => { sc with children := sc.children ++ [t.scopes.size] })).push
            { parent := some t.current,
              ret := ((t.scopes.get? t.current).map ScopeR.ret).getD voidType })[j]? = none by
        rw [Array.getElem?_eq_none_iff]
        simp only [Array.size_push]
        omega] at hsc
      cases hsc

theorem NoVC_scopeSymbolAux (fuel : Nat) : ∀ (t : SemanticTable) (idx : Nat) (name : String),
    NoVC t → NoVC (scopeSymbolAux fuel t idx name).2 := by
  induction fuel with
  | zero => intro t idx name h; exact h
  | succ fuel ih =>
    intro t idx name h
    unfold scopeSymbolAux
    cases hg : t.scopes.get? idx with
    | none => exact h
    | some sc =>
      dsimp only
      cases hl : List.lookup name sc.symbols with
      | some sym =>
        dsimp only
        intro j sc2 hsc2 n2 s2 hlk2
        rcases updScope_get?_cases t.scopes idx _ j sc2 hsc2 with ⟨sc0, hsc0, hc | hc⟩
        · subst hc
          rw [lookup_setSym] at hlk2
          split at hlk2
          · injection hlk2 with he
            subst he
            exact h idx sc hg name sym hl
          · exact h j sc0 hsc0 n2 s2 hlk2
        · subst hc
          exact h j _ hsc0 n2 s2 hlk2
      | none =>
        cases hp : sc.parent with
        | some p => exact ih t p name h
        | none => exact h

theorem NoVC_tableSymbol (t : SemanticTable) (name : String) (h : NoVC t) :
    NoVC (tableSymbol t name).2 :=
  NoVC_scopeSymbolAux t.scopes.size t t.current name h

theorem tableSymbol_kind (t : SemanticTable) (name : String) (sym : Symbol)
    (t' : SemanticTable) (h : NoVC t) (hs : tableSymbol t name = (some sym, t')) :
    sym.kind ≠ .VarSymbol ∧ sym.kind ≠ .ConstSymbol := by
  rcases scopeSymbolAux_found _ t _ name sym t' hs with ⟨i, sc, sym0, hg, hl, hsym, _⟩
  have hker := h i sc hg name sym0 hl
  rw [hsym]
  exact hker

theorem NoVC_newSemanticTable : NoVC newSemanticTable := by
  intro i sc hsc name sym hlk
  cases i with
  | zero =>
    rw [show newSemanticTable.scopes.get? 0 = some { parent := none } from rfl] at hsc
    injection hsc with hsc
    rw [← hsc] at hlk
    cases hlk
  | succ n =>
    rw [show newSemanticTable.scopes.get? (n + 1) = none by
      rw [Array.get?_eq_getElem?, Array.getElem?_eq_none_iff]
      show 1 ≤ n + 1
      omega] at hsc
    cases hsc

/-! ## C6: checker-side lemmas

A check run that adds no diagnostic, over a table with no VAR/CONST
symbols, forces every return statement it walks to carry a literal (or no)
expression: `evalIdent` always diagnoses under `NoVC`, and call or missing
expressions make the checker panic (error) outright. -/

theorem cErr_or_id_num (s : CheckState) (c : Prop) [Decidable c] (p e : Pos) (m : String) :
    s.numErrors ≤ (if c then cErr s p e m else s).numErrors := by
  split
  · show s.numErrors ≤ s.numErrors + 1
    omega
  · exact le_refl _

theorem cErr_or_id_table (s : CheckState) (c : Prop) [Decidable c] (p e : Pos) (m : String) :
    (if c then cErr s p e m else s).table = s.table := by
  split
  · rfl
  · rfl

theorem visitMain_props (s : CheckState) (f : Func) (s1 : CheckState)
    (hok : visitMain s f = .ok s1) :
    s.numErrors ≤ s1.numErrors ∧ s1.table = s.table := by
  cases hp : f.params with
  | none => simp [visitMain, hp] at hok
  | some nt =>
    cases hrt : f.retType with
    | none => simp [visitMain, hp, hrt] at hok
    | some rt =>
      simp only [visitMain, hp, hrt] at hok
      injection hok with h1
      subst h1
      constructor
      · exact le_trans (le_trans (cErr_or_id_num s _ _ _ _) (cErr_or_id_num _ _ _ _ _))
          (cErr_or_id_num _ _ _ _ _)
      · rw [cErr_or_id_table, cErr_or_id_table, cErr_or_id_table]

theorem visitReturn_props (s : CheckState) (tk : Token) (e : Option Expr) (s' : CheckState)
    (hok : visitReturn s tk e = .ok s') (hn : NoVC s.table) :
    s.numErrors ≤ s'.numErrors ∧ NoVC s'.table
      ∧ (s'.numErrors = s.numErrors → RetLitStmt (.ret tk e)) := by
  have hn1 : NoVC (markReturned s.table) := NoVC_markReturned s.table hn
  cases e with
  | none =>
    simp only [visitReturn] at hok
    split at hok
    · injection hok with h
      subst h
      exact ⟨by show s.numErrors ≤ s.numErrors + 1; omega, hn1, fun _ => RetLitStmt.retNone tk⟩
    · injection hok with h
      subst h
      exact ⟨le_refl _, hn1, fun _ => RetLitStmt.retNone tk⟩
  | some e' =>
    cases e' with
    | lit tkl v =>
      simp only [visitReturn, evalExpr] at hok
      rcases hev : evalLiteral tkl with m | ty
      · simp only [hev] at hok
        simp at hok
      · simp only [hev] at hok
        split at hok
        · injection hok with h
          subst h
          exact ⟨by show s.numErrors ≤ s.numErrors + 1; omega, hn1,
            fun _ => RetLitStmt.retLit tk tkl v⟩
        · injection hok with h
          subst h
          exact ⟨le_refl _, hn1, fun _ => RetLitStmt.retLit tk tkl v⟩
    | ident n itk =>
      simp only [visitReturn, evalExpr, evalIdent] at hok
      rcases hts : tableSymbol (markReturned s.table) n with ⟨osym, t'⟩
      have hnt' : NoVC t' := by
        have hv := NoVC_tableSymbol (markReturned s.table) n hn1
        rwa [hts] at hv
      cases osym with
      | some sym =>
        have hkind := tableSymbol_kind (markReturned s.table) n sym t' hn1 hts
        have hcond : (decide ¬sym.kind = SymbolKind.VarSymbol
            && decide ¬sym.kind = SymbolKind.ConstSymbol) = true := by
          simp [hkind.1, hkind.2]
        simp only [hts] at hok
        rw [if_pos hcond] at hok
        injection hok with h
        subst h
        refine ⟨by show s.numErrors ≤ s.numErrors + 1; omega, hnt', fun he => ?_⟩
        exact absurd he (by show ¬s.numErrors + 1 = s.numErrors; omega)
      | none =>
        simp only [hts] at hok
        injection hok with h
        subst h
        refine ⟨by show s.numErrors ≤ s.numErrors + 1; omega, hnt', fun he => ?_⟩
        exact absurd he (by show ¬s.numErrors + 1 = s.numErrors; omega)
    | call a b c d =>
      simp [visitReturn, evalExpr] at hok

theorem checkEngine_props (fuel : Nat) : ∀ (s : CheckState) (job : CheckJob) (s' : CheckState),
    checkEngine fuel s job = .ok s' → NoVC s.table →
    s.numErrors ≤ s'.numErrors ∧ NoVC s'.table
      ∧ (s'.numErrors = s.numErrors → AllRetLitC job) := by
  induction fuel with
  | zero => intro s job s' hok hn; simp [checkEngine] at hok
  | succ fuel ih =>
    intro s job s' hok hn
    cases job with
    | one st =>
      cases st with
      | ret tk e => exact visitReturn_props s tk e s' hok hn
      | blockStmt b =>
        have h := ih s (.blockJ b) s' hok hn
        refine ⟨h.1, h.2.1, fun he => ?_⟩
        have hall := h.2.2 he
        cases b with
        | blk bid be lb sts rb => exact RetLitStmt.block bid be lb sts rb hall
      | exprStmt e => simp [checkEngine] at hok
    | blockJ b =>
      cases b with
      | blk bid be lb sts rb =>
        simp only [checkEngine] at hok
        rcases hx : checkEngine fuel { s with table := pushScope s.table (some bid) }
            (.many sts) with m | s2
        · simp only [hx] at hok
          simp at hok
        · simp only [hx] at hok
          injection hok with h
          subst h
          have h2 := ih { s with table := pushScope s.table (some bid) } (.many sts) s2 hx
            (NoVC_pushScope s.table (some bid) hn)
          exact ⟨h2.1, NoVC_popScope s2.table h2.2.1, fun he => h2.2.2 he⟩
    | many l =>
      cases l with
      | nil =>
        have hok' : Except.ok s = Except.ok s' := hok
        injection hok' with h
        subst h
        exact ⟨le_refl _, hn, fun _ => fun st hst => absurd hst (List.not_mem_nil st)⟩
      | cons st rest =>
        simp only [checkEngine] at hok
        rcases h1 : checkEngine fuel s (.one st) with m | s1
        · simp only [h1] at hok
          simp at hok
        · simp only [h1] at hok
          have hs1 := ih s (.one st) s1 h1 hn
          have hs2 := ih s1 (.many rest) s' hok hs1.2.1
          refine ⟨le_trans hs1.1 hs2.1, hs2.2.1, fun he => ?_⟩
          have he1 : s1.numErrors = s.numErrors := by
            have := hs1.1
            have := hs2.1
            omega
          intro g hg
          rcases List.mem_cons.mp hg with rfl | hmem
          · exact hs1.2.2 he1
          · exact hs2.2.2 (by omega) g hmem

theorem visitFunc_props (s : CheckState) (f : Func) (s' : CheckState)
    (hok : visitFunc s f = .ok s') (hn : NoVC s.table)
    (hpe : ∀ nt, f.params = some nt → nt.fields = []) :
    s.numErrors ≤ s'.numErrors ∧ NoVC s'.table
      ∧ (s'.numErrors = s.numErrors →
          ∀ b, f.block = some b → ∀ st ∈ b.stmts, RetLitStmt st) := by
  simp only [visitFunc] at hok
  rcases hm : (if f.name.lexeme = "main" then visitMain s f else Except.ok s) with m | s1
  · simp only [hm] at hok
    simp at hok
  · simp only [hm] at hok
    have hm1 : s.numErrors ≤ s1.numErrors ∧ s1.table = s.table := by
      split at hm
      · exact visitMain_props s f s1 hm
      · injection hm with h
        subst h
        exact ⟨le_refl _, rfl⟩
    have hn1 : NoVC s1.table := by
      rw [hm1.2]
      exact hn
    rcases hts : tableSymbol s1.table f.name.lexeme with ⟨osym, t'⟩
    have hnt' : NoVC t' := by
      have hv := NoVC_tableSymbol s1.table f.name.lexeme hn1
      rwa [hts] at hv
    simp only [hts] at hok
    cases osym with
    | some fsym =>
      injection hok with h
      subst h
      refine ⟨by have := hm1.1; show s.numErrors ≤ s1.numErrors + 1; omega, hnt', fun he => ?_⟩
      exact absurd he (by have := hm1.1; show ¬s1.numErrors + 1 = s.numErrors; omega)
    | none =>
      rcases hvt : visitType f.retType with m | retType
      · simp only [hvt] at hok
        simp at hok
      · simp only [hvt] at hok
        rcases hparams : f.params with _ | nt
        · simp only [hparams] at hok
          simp at hok
        · simp only [hparams] at hok
          have hf : nt.fields = [] := hpe nt hparams
          rw [hf] at hok
          simp only [declareParams] at hok
          rcases hblock : f.block with _ | b
          · simp only [hblock] at hok
            simp at hok
          · simp only [hblock] at hok
            split at hok
            · exact Except.noConfusion hok
            · next s7 heq =>
              injection hok with h
              subst h
              have h7 := checkEngine_props recFuel _ (.many b.stmts) s7 heq
                (NoVC_setReturnType _ _ (NoVC_pushScope _ _ (NoVC_tableDeclare t'
                  { kind := SymbolKind.FuncSymbol, name := f.name.lexeme, refCount := 0,
                    exported := f.pub, typ := retType, scope := 0, pos := funcPos f }
                  ⟨fun hc => SymbolKind.noConfusion hc, fun hc => SymbolKind.noConfusion hc⟩
                  hnt')))
              dsimp only at h7
              refine ⟨?_, ?_, fun he => ?_⟩
              · have ha := hm1.1
                have hb := h7.1
                calc s.numErrors ≤ s7.numErrors := by omega
                  _ ≤ _ := cErr_or_id_num s7 _ _ _ _
              · have hnov8 : NoVC (if (!tableHasReturned s7.table
                      && !typeEquals retType voidType) = true
                    then cErr s7 (funcPos f) (funcEnd f) "function never returns"
                    else s7).table := by
                  rw [cErr_or_id_table]
                  exact h7.2.1
                exact NoVC_popScope _ hnov8
              · have h8 := cErr_or_id_num s7
                  ((!tableHasReturned s7.table && !typeEquals retType voidType) = true)
                  (funcPos f) (funcEnd f) "function never returns"
                have he' : (if (!tableHasReturned s7.table
                      && !typeEquals retType voidType) = true
                    then cErr s7 (funcPos f) (funcEnd f) "function never returns"
                    else s7).numErrors = s.numErrors := he
                have ha := hm1.1
                have hb := h7.1
                have he7 : s7.numErrors = s1.numErrors := by omega
                intro b2 hb2 st hst
                injection hb2 with hb2
                subst hb2
                exact h7.2.2 he7 st hst

theorem checkFuncs_props : ∀ (l : List Func) (s : CheckState) (s' : CheckState),
    checkFuncs s l = .ok s' → NoVC s.table →
    (∀ f ∈ l, ∀ nt, f.params = some nt → nt.fields = []) →
    s.numErrors ≤ s'.numErrors ∧ NoVC s'.table
      ∧ (s'.numErrors = s.numErrors →
          ∀ f ∈ l, ∀ b, f.block = some b → ∀ st ∈ b.stmts, RetLitStmt st) := by
  intro l
  induction l with
  | nil =>
    intro s s' hok hn hp
    have hok' : Except.ok s = Except.ok s' := hok
    injection hok' with h
    subst h
    exact ⟨le_refl _, hn, fun _ => fun g hg => absurd hg (List.not_mem_nil g)⟩
  | cons f rest ih =>
    intro s s' hok hn hp
    simp only [checkFuncs] at hok
    rcases hvf : visitFunc s f with m | s1
    · simp only [hvf] at hok
      simp at hok
    · simp only [hvf] at hok
      have h1 := visitFunc_props s f s1 hvf hn (hp f (List.mem_cons_self f rest))
      have h2 := ih s1 s' hok h1.2.1 (fun g hg nt hnt => hp g (List.mem_cons_of_mem f hg) nt hnt)
      refine ⟨le_trans h1.1 h2.1, h2.2.1, fun he => ?_⟩
      have e1 : s1.numErrors = s.numErrors := by
        have := h1.1
        have := h2.1
        omega
      intro g hg b hb st hst
      rcases List.mem_cons.mp hg with rfl | hmem
      · exact h1.2.2 e1 b hb st hst
      · exact h2.2.2 (by omega) g hmem b hb st hst

/-! ## C6: builder-side lemmas

`VisitReturn` emits a store into a fresh vreg followed by a `RET` of the
same vreg whenever the return expression is a literal the builder can
lower — and the zero-diagnostic checker run only lets literal returns
through.  These lemmas push `RetsRef` through the builder walk. -/

theorem retsRef_nil : RetsRef [] := by
  intro i instr hget hop
  simp at hget

theorem retsRef_append_nonret (l : List Instruction) (x : Instruction)
    (hr : RetsRef l) (hx : x.op ≠ OpCode.RET) : RetsRef (l ++ [x]) := by
  intro i instr hget hop
  rw [List.getElem?_append] at hget
  split at hget
  · next hi =>
    rcases hr i instr hget hop with ⟨j, instr', hj, hgj, hsto, hdest⟩
    refine ⟨j, instr', hj, ?_, hsto, hdest⟩
    rw [List.getElem?_append, if_pos (lt_trans hj hi)]
    exact hgj
  · next hi =>
    have hlen : i - l.length = 0 := by
      by_contra hne
      rw [List.getElem?_eq_none (by simp; omega)] at hget
      exact Option.noConfusion hget
    rw [hlen] at hget
    simp at hget
    rw [← hget] at hop
    exact absurd hop hx

theorem retsRef_append_store_ret (l : List Instruction) (st rt : Instruction)
    (hr : RetsRef l) (hst : isStoreOp st.op = true) (_hrt : rt.op = OpCode.RET)
    (hid : st.dest.id = rt.value.id) : RetsRef (l ++ [st, rt]) := by
  intro i instr hget hop
  rw [List.getElem?_append] at hget
  split at hget
  · next hi =>
    rcases hr i instr hget hop with ⟨j, instr', hj, hgj, hsto, hdest⟩
    refine ⟨j, instr', hj, ?_, hsto, hdest⟩
    rw [List.getElem?_append, if_pos (lt_trans hj hi)]
    exact hgj
  · next hi =>
    cases hk : i - l.length with
    | zero =>
      rw [hk] at hget
      simp at hget
      rw [← hget] at hop
      rw [hop] at hst
      simp [isStoreOp] at hst
    | succ k =>
      cases k with
      | zero =>
        rw [hk] at hget
        simp at hget
        refine ⟨l.length, st, by omega, ?_, hst, ?_⟩
        · rw [List.getElem?_append_right (le_refl l.length)]
          simp
        · rw [← hget]
          exact hid
      | succ k2 =>
        rw [hk] at hget
        rw [List.getElem?_eq_none (by simp)] at hget
        exact Option.noConfusion hget

theorem buildVisitLiteral_shape (s : BuildState) (tk : Token) (v : String) (s' : BuildState)
    (hok : buildVisitLiteral s tk v = .ok s') :
    ∃ instr, s'.ir = s.ir ++ [instr] ∧ isStoreOp instr.op = true
      ∧ instr.dest.id = s.curIdx := by
  simp only [buildVisitLiteral] at hok
  rcases hk : tokenToTypeKind tk.ttype with _ | k
  · simp only [hk] at hok
    simp at hok
  · simp only [hk] at hok
    cases k with
    | INT =>
      injection hok with h
      subst h
      exact ⟨_, rfl, rfl, rfl⟩
    | FLOAT =>
      injection hok with h
      subst h
      exact ⟨_, rfl, rfl, rfl⟩
    | STRING =>
      injection hok with h
      subst h
      exact ⟨_, rfl, rfl, rfl⟩
    | BOOL =>
      injection hok with h
      subst h
      exact ⟨_, rfl, rfl, rfl⟩
    | BYTE => exact Except.noConfusion hok
    | VOID => exact Except.noConfusion hok

theorem buildEngine_props (fuel : Nat) : ∀ (s : BuildState) (job : BuildJob) (s' : BuildState),
    buildEngine fuel s job = .ok s' → AllRetLitB job → RetsRef s.ir →
    RetsRef s'.ir ∧ ∃ tail, s'.ir = s.ir ++ tail := by
  induction fuel with
  | zero => intro s job s' hok _ _; simp [buildEngine] at hok
  | succ fuel ih =>
    intro s job s' hok hall hr
    cases job with
    | one st =>
      cases st with
      | ret tk e =>
        have hok' : buildVisitReturn s e = .ok s' := hok
        cases hall with
        | retLit tk2 tkl v =>
          simp only [buildVisitReturn, buildExpr] at hok'
          rcases hbl : buildVisitLiteral { s with ctr := s.ctr + 1, curIdx := s.ctr } tkl v
            with m | s2
          · simp only [hbl] at hok'
            simp at hok'
          · simp only [hbl] at hok'
            injection hok' with h
            subst h
            rcases buildVisitLiteral_shape _ tkl v s2 hbl with ⟨instr, hir, hsto, hdest⟩
            constructor
            · show RetsRef (s2.ir ++ [_])
              rw [hir, List.append_assoc]
              exact retsRef_append_store_ret s.ir instr _ hr hsto rfl hdest
            · exact ⟨_, by rw [hir, List.append_assoc]⟩
        | retNone =>
          simp [buildVisitReturn] at hok'
      | blockStmt b =>
        cases hall with
        | block bid be lb sts rb hsts => exact ih s (.blockJ _) s' hok hsts hr
      | exprStmt e => simp [buildEngine] at hok
    | blockJ b =>
      cases b with
      | blk bid be lb sts rb =>
        simp only [buildEngine] at hok
        rcases htr : trPush s.table (some bid) with m | t
        · simp only [htr] at hok
          simp at hok
        · simp only [htr] at hok
          rcases hbe : buildEngine fuel { s with table := t } (.many sts) with m | s1
          · simp only [hbe] at hok
            simp at hok
          · simp only [hbe] at hok
            injection hok with h
            subst h
            exact ih { s with table := t } (.many sts) s1 hbe hall hr
    | many l =>
      cases l with
      | nil =>
        have hok' : Except.ok s = Except.ok s' := hok
        injection hok' with h
        subst h
        exact ⟨hr, [], by simp⟩
      | cons st rest =>
        simp only [buildEngine] at hok
        rcases h1 : buildEngine fuel s (.one st) with m | s1
        · simp only [h1] at hok
          simp at hok
        · simp only [h1] at hok
          have hs1 := ih s (.one st) s1 h1 (hall st (List.mem_cons_self st rest)) hr
          have hs2 := ih s1 (.many rest) s' hok
            (fun g hg => hall g (List.mem_cons_of_mem st hg)) hs1.1
          rcases hs1.2 with ⟨t1, ht1⟩
          rcases hs2.2 with ⟨t2, ht2⟩
          exact ⟨hs2.1, t1 ++ t2, by rw [ht2, ht1, List.append_assoc]⟩

theorem buildVisitFunc_ir (s : BuildState) (f : Func) (s' : BuildState)
    (hok : buildVisitFunc s f = .ok s')
    (hlit : ∀ b0, f.block = some b0 → ∀ st ∈ b0.stmts, RetLitStmt st)
    (hr : RetsRef s.ir) :
    RetsRef s'.ir ∧ ∃ fi tail, fi.op = OpCode.FUNC ∧ s'.ir = s.ir ++ (fi :: tail) := by
  simp only [buildVisitFunc] at hok
  rcases htg : trGet s.table f.name.lexeme with m | p
  · simp only [htg] at hok
    simp at hok
  · rcases p with ⟨sym, t'⟩
    simp only [htg] at hok
    rcases hparams : f.params with _ | nt
    · simp only [hparams] at hok
      simp at hok
    · simp only [hparams] at hok
      split at hok
      · exact Except.noConfusion hok
      · rcases hblock : f.block with _ | b
        · simp only [hblock] at hok
          simp at hok
        · simp only [hblock] at hok
          cases b with
          | blk bid be lb sts rb =>
            have hall : AllRetLitB (.blockJ (.blk bid be lb sts rb)) := by
              intro st hst
              exact hlit _ hblock st hst
            have hr1 : RetsRef (s.ir ++
                [{ op := OpCode.FUNC, name := f.name.lexeme, pub := f.pub,
                   retType := some sym.typ }]) :=
              retsRef_append_nonret s.ir _ hr (fun hc => OpCode.noConfusion hc)
            have h := buildEngine_props recFuel _ (.blockJ (.blk bid be lb sts rb)) s' hok
              hall hr1
            rcases h.2 with ⟨tail, htail⟩
            refine ⟨h.1,
              { op := OpCode.FUNC, name := f.name.lexeme, pub := f.pub, retType := some sym.typ },
              tail, rfl, ?_⟩
            calc s'.ir
                = (s.ir ++ [{ op := OpCode.FUNC, name := f.name.lexeme, pub := f.pub, retType := some sym.typ }]) ++ tail := htail
              _ = _ := by rw [List.append_assoc]; rfl

theorem buildFuncs_params : ∀ (l : List Func) (s : BuildState) (s' : BuildState),
    buildFuncs s l = .ok s' → ∀ f ∈ l, ∀ nt, f.params = some nt → nt.fields = [] := by
  intro l
  induction l with
  | nil => intro s s' hok g hg; exact absurd hg (List.not_mem_nil g)
  | cons f rest ih =>
    intro s s' hok g hg
    simp only [buildFuncs] at hok
    rcases hvf : buildVisitFunc s f with m | s1
    · simp only [hvf] at hok
      simp at hok
    · simp only [hvf] at hok
      rcases List.mem_cons.mp hg with rfl | hmem
      · intro nt hnt
        simp only [buildVisitFunc] at hvf
        rcases htg : trGet s.table g.name.lexeme with m | p
        · simp only [htg] at hvf
          simp at hvf
        · rcases p with ⟨sym, t'⟩
          simp only [htg, hnt] at hvf
          split at hvf
          · exact Except.noConfusion hvf
          · next hcond =>
            have hz : nt.fields.length = 0 := by
              by_contra hne
              exact hcond (by simpa using hne)
            exact List.length_eq_zero.mp hz
      · exact ih s1 s' hok g hmem

theorem buildFuncs_ir : ∀ (l : List Func) (s : BuildState) (s' : BuildState),
    buildFuncs s l = .ok s' →
    (∀ f ∈ l, ∀ b0, f.block = some b0 → ∀ st ∈ b0.stmts, RetLitStmt st) →
    RetsRef s.ir →
    RetsRef s'.ir ∧ (∃ tail, s'.ir = s.ir ++ tail)
      ∧ (l ≠ [] → ∃ fi tail, fi.op = OpCode.FUNC ∧ s'.ir = s.ir ++ (fi :: tail)) := by
  intro l
  induction l with
  | nil =>
    intro s s' hok hl hr
    have hok' : Except.ok s = Except.ok s' := hok
    injection hok' with h
    subst h
    exact ⟨hr, ⟨[], by simp⟩, fun hne => absurd rfl hne⟩
  | cons f rest ih =>
    intro s s' hok hl hr
    simp only [buildFuncs] at hok
    rcases hvf : buildVisitFunc s f with m | s1
    · simp only [hvf] at hok
      simp at hok
    · simp only [hvf] at hok
      rcases buildVisitFunc_ir s f s1 hvf (hl f (List.mem_cons_self f rest)) hr
        with ⟨hr1, fi, t1, hfi, ht1⟩
      rcases ih s1 s' hok (fun g hg => hl g (List.mem_cons_of_mem f hg)) hr1
        with ⟨hr2, ⟨t2, ht2⟩, _⟩
      have hfin : s'.ir = s.ir ++ (fi :: (t1 ++ t2)) := by
        rw [ht2, ht1, List.append_assoc, List.cons_append]
      exact ⟨hr2, ⟨fi :: (t1 ++ t2), hfin⟩, fun _ => ⟨fi, t1 ++ t2, hfi, hfin⟩⟩

/-- C6 (amended): for every compilation whose CHECK stage completes with
zero diagnostics and whose IR build succeeds, the produced instruction
sequence satisfies both claimed invariants as soon as the program is
nonempty: it begins with a `FUNC` instruction, and every `RET`
instruction's value id was previously assigned as the destination of an
earlier store instruction.  (The counterexample shows the nonemptiness
qualifier is necessary: an empty compile succeeds with an empty IR.) -/
theorem c6_checked_build_ir_shape :
    ∀ (f : File) (tree : Ast) (cs : CheckState) (ins : List Instruction) (tbl : SemanticTable),
      check f tree = .ok cs → cs.numErrors = 0 →
      build tree cs.table = .ok (ins, tbl) →
      RetsRef ins ∧ (tree ≠ [] → ins.head?.map Instruction.op = some OpCode.FUNC) := by
  intro f tree cs ins tbl hchk hnum hbld
  unfold build at hbld
  rcases hbf : buildFuncs { table := cs.table } tree with m | bs
  · simp only [hbf] at hbld
    simp at hbld
  · simp only [hbf] at hbld
    injection hbld with h
    injection h with h1 h2
    have hparams := buildFuncs_params tree { table := cs.table } bs hbf
    have hchk' : checkFuncs { file := f, table := newSemanticTable } tree = .ok cs := hchk
    have hc := checkFuncs_props tree { file := f, table := newSemanticTable } cs hchk'
      NoVC_newSemanticTable hparams
    have hret := hc.2.2 (by rw [hnum])
    have hb := buildFuncs_ir tree { table := cs.table } bs hbf hret retsRef_nil
    constructor
    · rw [← h1]
      exact hb.1
    · intro hne
      rcases hb.2.2 hne with ⟨fi, tail, hfi, hir⟩
      rw [← h1, hir]
      show ((([] : List Instruction) ++ (fi :: tail)).head?.map Instruction.op)
        = some OpCode.FUNC
      rw [List.nil_append]
      show some fi.op = some OpCode.FUNC
      rw [hfi]

/-- C6 witness: the amended theorem applied to the concrete `main` program
(parse tree, checked state and built IR computed from the source): its IR
satisfies both conclusions. -/
theorem c6_checked_build_ir_shape_witness :
    RetsRef c6Build.1
      ∧ (c6Tree ≠ [] → c6Build.1.head?.map Instruction.op = some OpCode.FUNC) :=
  c6_checked_build_ir_shape (newFile c6Src) c6Tree c6Cs c6Build.1 c6Build.2 rfl rfl rfl

end Koi
